import Mathlib

/-!
# Workflow orchestration of `open-code-agents`

A shallow embedding of `pkg/orchestrator/workflow.go` and of the parts of
`pkg/agent/engine.go` the orchestrator runs through, followed by the
properties proved about them.

Modelling conventions.

* A Go `string` is a Lean `String`; substring search and replacement work on
  its list of characters.
* A Go `map[string]T` is an association list with at most one entry per key
  once it has been built with `set`; assignment `m[k] = v` is `set`.  The
  order in which `range` visits a map is not fixed by Go, so every function
  that ranges over a map and whose result may depend on the order is given
  the visiting order explicitly, as the order of the list.
* A value of type `interface{}` is a `Value`: a string, an integer or a
  boolean, rendered by `%v` as Go renders them.
* A `float64` is an exact rational.
* `fmt.Printf` appends a line to the list of printed lines.
* The file system and the embedded resources reached by `loadAgent` are
  fields of `Engine`; `NewEngine` fills them from a `Host`, which holds the
  texts of the agent files, the embedded directory and the working directory.
* `len` and slicing of a string count bytes: a character counts for the bytes
  of its UTF-8 encoding.
* The float scanner behind `fmt.Sscanf` with `%f` is a field of `Host`.
-/

set_option maxRecDepth 100000

namespace OpenCodeAgents

/-! ## Dynamic values and maps -/

/-- Dynamically typed value stored in an execution context. -/
inductive Value where
  | str (s : String)
  | int (n : Int)
  | bool (b : Bool)
  deriving DecidableEq, Repr

/-- Rendering of a value by the `%v` verb. -/
def Value.format : Value → String
  | .str s => s
  | .int n => toString n
  | .bool true => "true"
  | .bool false => "false"

/-- Go map with string keys, as an association list. -/
abbrev GoMap (α : Type) := List (String × α)

/-- Execution context, `map[string]interface{}`. -/
abbrev Ctx := GoMap Value

/-- Map lookup, `m[k]` with the presence flag. -/
def GoMap.get {α : Type} : GoMap α → String → Option α
  | [], _ => none
  | (k', v) :: rest, k => if k' = k then some v else GoMap.get rest k

/-- Map assignment, `m[k] = v`. -/
def GoMap.set {α : Type} : GoMap α → String → α → GoMap α
  | [], k, v => [(k, v)]
  | (k', v') :: rest, k, v =>
    if k' = k then (k, v) :: rest else (k', v') :: GoMap.set rest k v

/-- The loop `for k, v := range src { dst[k] = v }`. -/
def GoMap.assignAll {α : Type} (dst src : GoMap α) : GoMap α :=
  src.foldl (fun acc kv => GoMap.set acc kv.1 kv.2) dst

/-! ## Strings -/

/-- Scan of `strings.ReplaceAll` for a non-empty `old`: `skip` counts the
characters of the current match that are still to be dropped. -/
def replaceScan (old new : List Char) : Nat → List Char → List Char
  | _, [] => []
  | skip + 1, _ :: cs => replaceScan old new skip cs
  | 0, c :: cs =>
    if old.isPrefixOf (c :: cs) then new ++ replaceScan old new (old.length - 1) cs
    else c :: replaceScan old new 0 cs

/-- Go library function `strings.ReplaceAll(s, old, new)`: the non-overlapping
occurrences of `old` in `s`, found from the left, are replaced by `new`; an
empty `old` matches before every character and at the end. -/
def ReplaceAll (s old new : String) : String :=
  if old.data = [] then
    String.mk (new.data ++ s.data.flatMap (fun c => c :: new.data))
  else
    String.mk (replaceScan old.data new.data 0 s.data)

/-- Search of `strings.Contains`: `sub` starts at some position of the list. -/
def containsChars (sub : List Char) : List Char → Bool
  | [] => sub.isPrefixOf []
  | c :: cs => sub.isPrefixOf (c :: cs) || containsChars sub cs

/-- Go library function `strings.Contains(s, substr)`. -/
def Contains (s substr : String) : Bool := containsChars substr.data s.data

/-- Rendering of a `float64` by the `%.1f` verb: one decimal, nearest, ties to
even, computed on the numerator and the denominator. -/
def fmtF1 (x : Rat) : String :=
  let scaled := x.num.natAbs * 10
  let lower := scaled / x.den
  let rest := scaled % x.den
  let n :=
    if 2 * rest < x.den then lower
    else if x.den < 2 * rest then lower + 1
    else if lower % 2 = 0 then lower else lower + 1
  (if x.num < 0 then "-" else "") ++ toString (n / 10) ++ "." ++ toString (n % 10)

/-- Comparison `a < b` of two Go strings, character by character. -/
def strLt : List Char → List Char → Bool
  | [], [] => false
  | [], _ :: _ => true
  | _ :: _, [] => false
  | a :: as, b :: bs =>
    if a.toNat < b.toNat then true else if b.toNat < a.toNat then false else strLt as bs

/-- Insertion of an entry into a list of entries sorted by key. -/
def insertByKey {α : Type} (kv : String × α) : List (String × α) → List (String × α)
  | [] => [kv]
  | kv' :: rest =>
    if strLt kv.1.data kv'.1.data then kv :: kv' :: rest else kv' :: insertByKey kv rest

/-- Rendering of a `map[string]bool` by the `%v` verb: `map[k1:v1 k2:v2]`, keys
in increasing order. -/
def fmtBoolMap (m : GoMap Bool) : String :=
  "map[" ++ " ".intercalate
    ((m.foldr insertByKey []).map (fun kv => kv.1 ++ ":" ++ (if kv.2 then "true" else "false")))
    ++ "]"

/-! ## `pkg/resources`, `pkg/config`: the data the engine works on -/

/-- Agent definition, `resources.AgentResource`. -/
structure AgentResource where
  Name : String
  Description : String
  Content : String
  Mode : String
  Temperature : Rat
  Tools : GoMap Bool
  deriving DecidableEq

/-- Installation scopes, `config.Scope`. -/
inductive Scope where
  | UserScope
  | ProjectScope
  deriving DecidableEq, Repr

/-! ## `pkg/agent/engine.go` -/

/-- Engine of `pkg/agent`.  Besides the two fields of the Go struct it carries
what `loadAgent` reads from outside the process: `installed scope name` is the
outcome of `loadInstalledAgent(name, scope)` (the parsed file of that scope, if
it can be read) and `embedded name` the outcome of `resources.GetAgent(name)`. -/
structure Engine where
  workingDir : String
  context : Ctx
  installed : Scope → String → Option AgentResource
  embedded : String → Option AgentResource

/-- Request of an agent execution, `ExecuteRequest`. -/
structure ExecuteRequest where
  AgentName : String
  Input : String
  Context : Ctx
  Tools : GoMap Bool
  deriving DecidableEq

/-- Suggestion of the next agent, `HandoffSuggestion`. -/
structure HandoffSuggestion where
  AgentName : String
  Reason : String
  Context : GoMap String
  deriving DecidableEq

/-- Result of an agent execution, `ExecuteResponse`. -/
structure ExecuteResponse where
  Output : String
  Success : Bool
  Error : String
  Context : Ctx
  Handoff : Option HandoffSuggestion
  deriving DecidableEq

/-- `Engine.loadAgent`: user scope first, then project scope, then the embedded
resources. -/
def Engine.loadAgent (e : Engine) (name : String) : Except String AgentResource :=
  match e.installed Scope.UserScope name with
  | some agent => .ok agent
  | none =>
    match e.installed Scope.ProjectScope name with
    | some agent => .ok agent
    | none =>
      match e.embedded name with
      | some agent => .ok agent
      | none => .error ("agent '" ++ name ++ "' not found in any location")

/-- `Engine.prepareContext`. -/
def Engine.prepareContext (e : Engine) (reqContext : Ctx) : Ctx :=
  let ctx : Ctx := []
  let ctx := GoMap.assignAll ctx e.context
  let ctx := GoMap.assignAll ctx reqContext
  GoMap.set ctx "working_dir" (Value.str e.workingDir)

/-- `Engine.executePrimaryAgent`. -/
def Engine.executePrimaryAgent (_e : Engine) (agent : AgentResource) (req : ExecuteRequest)
    (execCtx : Ctx) : Except String ExecuteResponse :=
  let output := "Executed " ++ agent.Name ++ " agent with input: " ++ req.Input ++ "\n"
  let output := output ++ ("Mode: " ++ agent.Mode ++ ", Temperature: " ++ fmtF1 agent.Temperature ++ "\n")
  let output := output ++ ("Available tools: " ++ fmtBoolMap agent.Tools ++ "\n")
  let handoff : Option HandoffSuggestion :=
    if agent.Name = "architect" then
      some { AgentName := "implementer"
             Reason := "Architecture complete, ready for implementation"
             Context := [("design", "completed")] }
    else if agent.Name = "implementer" then
      some { AgentName := "tester"
             Reason := "Implementation complete, needs testing"
             Context := [("implementation", "completed")] }
    else none
  .ok { Output := output, Success := true, Error := "", Context := execCtx, Handoff := handoff }

/-- `Engine.executeSubAgent`. -/
def Engine.executeSubAgent (_e : Engine) (agent : AgentResource) (req : ExecuteRequest)
    (execCtx : Ctx) : Except String ExecuteResponse :=
  let output := "Executed " ++ agent.Name ++ " subagent with input: " ++ req.Input ++ "\n"
  let output := output ++ ("Mode: " ++ agent.Mode ++ ", Temperature: " ++ fmtF1 agent.Temperature ++ "\n")
  let output := output ++ ("Available tools: " ++ fmtBoolMap agent.Tools ++ "\n")
  .ok { Output := output, Success := true, Error := "", Context := execCtx, Handoff := none }

/-- `Engine.Execute`.  The Go pair `(response, error)` is an `Except`: `ok` is a
response with a nil error. -/
def Engine.Execute (e : Engine) (req : ExecuteRequest) : Except String ExecuteResponse :=
  match e.loadAgent req.AgentName with
  | .error err =>
    .ok { Output := "", Success := false, Error := "Failed to load agent: " ++ err,
          Context := [], Handoff := none }
  | .ok agent =>
    let execCtx := e.prepareContext req.Context
    if agent.Mode = "primary" then e.executePrimaryAgent agent req execCtx
    else if agent.Mode = "subagent" then e.executeSubAgent agent req execCtx
    else
      .ok { Output := "", Success := false, Error := "Unknown agent mode: " ++ agent.Mode,
            Context := [], Handoff := none }

/-! ## `pkg/orchestrator/workflow.go` -/

/-- Step of a workflow, `WorkflowStep`. -/
structure WorkflowStep where
  AgentName : String
  Input : String
  Required : Bool
  Context : GoMap String
  deriving DecidableEq

/-- Multi-agent workflow, `Workflow`. -/
structure Workflow where
  Name : String
  Description : String
  Steps : List WorkflowStep
  Context : GoMap String
  deriving DecidableEq

/-- Orchestrator of `pkg/orchestrator`. -/
structure Orchestrator where
  engine : Engine

/-- Result of one step, `StepResult`. -/
structure StepResult where
  AgentName : String
  Input : String
  Output : String
  Success : Bool
  Error : String
  Context : Ctx
  Handoff : Option HandoffSuggestion
  deriving DecidableEq

/-- Result of a workflow, `WorkflowResult`. -/
structure WorkflowResult where
  WorkflowName : String
  Steps : List StepResult
  Success : Bool
  Error : String
  Context : Ctx
  deriving DecidableEq

/-- What a call of `ExecuteWorkflow` produces: the returned pair and the lines
it printed. -/
structure WorkflowRun where
  result : WorkflowResult
  err : Option String
  printed : List String
  deriving DecidableEq

/-- `Orchestrator.substituteContext`, the context visited in the order of the
list. -/
def Orchestrator.substituteContext (_o : Orchestrator) (input : String) (context : Ctx) : String :=
  context.foldl
    (fun result kv =>
      let placeholder := "\x7b\x7b" ++ kv.1 ++ "\x7d\x7d"
      match kv.2 with
      | Value.str strValue => ReplaceAll result placeholder strValue
      | value => ReplaceAll result placeholder value.format)
    input

/-- The request `executeStep` builds for a step. -/
def Orchestrator.stepRequest (o : Orchestrator) (step : WorkflowStep) (workflowCtx : Ctx) :
    ExecuteRequest :=
  let input := o.substituteContext step.Input workflowCtx
  { AgentName := step.AgentName, Input := input, Context := workflowCtx, Tools := [] }

/-- `Orchestrator.executeStep`. -/
def Orchestrator.executeStep (o : Orchestrator) (step : WorkflowStep) (workflowCtx : Ctx) :
    StepResult :=
  let req := o.stepRequest step workflowCtx
  match o.engine.Execute req with
  | .error err =>
    { AgentName := step.AgentName, Input := req.Input, Output := "", Success := false,
      Error := err, Context := [], Handoff := none }
  | .ok response =>
    { AgentName := step.AgentName, Input := req.Input, Output := response.Output,
      Success := response.Success, Error := response.Error, Context := response.Context,
      Handoff := response.Handoff }

/-- The loop of `ExecuteWorkflow` over the steps still to run: `steps` is
`workflow.Steps`, `i` the index of the first step of the list. -/
def Orchestrator.runSteps (o : Orchestrator) (steps : List WorkflowStep) :
    Nat → List WorkflowStep → WorkflowResult → List String → WorkflowRun
  | _, [], result, printed => { result := result, err := none, printed := printed }
  | i, step :: rest, result, printed =>
    let stepResult := o.executeStep step result.Context
    let result := { result with Steps := result.Steps ++ [stepResult] }
    let result :=
      if stepResult.Success then
        { result with
          Context := GoMap.assignAll
            ((result.Context.set "last_output" (Value.str stepResult.Output)).set
              "last_agent" (Value.str step.AgentName))
            stepResult.Context }
      else result
    if step.Required && !stepResult.Success then
      { result := { result with
          Success := false
          Error := "Required step " ++ toString (i + 1) ++ " (" ++ step.AgentName ++
            ") failed: " ++ stepResult.Error }
        err := none
        printed := printed }
    else
      let printed :=
        match stepResult.Handoff with
        | some handoff =>
          if h : i < steps.length - 1 then
            let nextStep := steps[i + 1]
            if handoff.AgentName ≠ nextStep.AgentName then
              printed ++ ["Warning: Handoff suggested " ++ handoff.AgentName ++
                " but next step is " ++ nextStep.AgentName ++ "\n"]
            else printed
          else printed
        | none => printed
      Orchestrator.runSteps o steps (i + 1) rest result printed

/-- `Orchestrator.ExecuteWorkflow`. -/
def Orchestrator.ExecuteWorkflow (o : Orchestrator) (workflow : Workflow) : WorkflowRun :=
  let result : WorkflowResult :=
    { WorkflowName := workflow.Name, Steps := [], Success := true, Error := "", Context := [] }
  let result :=
    { result with
      Context := workflow.Context.foldl (fun c kv => GoMap.set c kv.1 (Value.str kv.2)) result.Context }
  o.runSteps workflow.Steps 0 workflow.Steps result []

/-! ## The run of a workflow, step by step

The definitions below name what the loop of `ExecuteWorkflow` goes through, so
that the properties can speak of the running context at a step boundary and of
the outcome of a step. -/

/-- The running context after the loop body has handled `step` in context `c`:
the update of lines 59 to 67, which a failed step skips. -/
def Orchestrator.advance (o : Orchestrator) (c : Ctx) (step : WorkflowStep) : Ctx :=
  let stepResult := o.executeStep step c
  if stepResult.Success then
    GoMap.assignAll
      ((c.set "last_output" (Value.str stepResult.Output)).set "last_agent"
        (Value.str step.AgentName))
      stepResult.Context
  else c

/-- The running context after the steps of a list have been handled in turn. -/
def Orchestrator.contextAfter (o : Orchestrator) (c : Ctx) (steps : List WorkflowStep) : Ctx :=
  steps.foldl o.advance c

/-- The step results of a list of steps handled in turn from context `c`. -/
def Orchestrator.resultsFrom (o : Orchestrator) : Ctx → List WorkflowStep → List StepResult
  | _, [] => []
  | c, step :: rest => o.executeStep step c :: Orchestrator.resultsFrom o (o.advance c step) rest

/-- The context `ExecuteWorkflow` starts from: the workflow context copied into
an empty map. -/
def initialContext (workflow : Workflow) : Ctx :=
  workflow.Context.foldl (fun c kv => GoMap.set c kv.1 (Value.str kv.2)) []

/-- The running context at step boundary `k`: after the first `k` steps, before
step `k` (counted from 0). -/
def Orchestrator.contextAt (o : Orchestrator) (workflow : Workflow) (k : Nat) : Ctx :=
  o.contextAfter (initialContext workflow) (workflow.Steps.take k)

/-- The result of executing step `k` (counted from 0) at its step boundary. -/
def Orchestrator.stepResultAt (o : Orchestrator) (workflow : Workflow) (k : Nat) :
    Option StepResult :=
  (workflow.Steps[k]?).map (fun step => o.executeStep step (o.contextAt workflow k))

/-- Step `k` of the list (counted from 0) is required and its execution fails,
the list being handled in turn from context `c`. -/
def Orchestrator.failsFrom (o : Orchestrator) (c : Ctx) (steps : List WorkflowStep) (k : Nat) :
    Bool :=
  match steps[k]? with
  | some step => step.Required && !(o.executeStep step (o.contextAfter c (steps.take k))).Success
  | none => false

/-- Step `k` (counted from 0) is required and its execution at its step
boundary fails. -/
def Orchestrator.requiredFailureAt (o : Orchestrator) (workflow : Workflow) (k : Nat) : Bool :=
  o.failsFrom (initialContext workflow) workflow.Steps k

/-- The warning line of a handoff mismatch. -/
def mismatchWarning (suggested next : String) : String :=
  "Warning: Handoff suggested " ++ suggested ++ " but next step is " ++ next ++ "\n"

/-- The warnings due for step `i` with result `sr`: one line when the step
succeeded with a handoff suggestion, a next step exists and the suggested agent
is not the next step's agent; none otherwise. -/
def expectedWarnings (steps : List WorkflowStep) (i : Nat) (sr : StepResult) : List String :=
  match sr.Handoff, steps[i + 1]? with
  | some handoff, some nextStep =>
    if sr.Success = true ∧ handoff.AgentName ≠ nextStep.AgentName then
      [mismatchWarning handoff.AgentName nextStep.AgentName]
    else []
  | _, _ => []

/-- The warnings due for a list of steps handled in turn from context `c`, the
first of them being step `i` of `steps`. -/
def Orchestrator.warningsFrom (o : Orchestrator) (steps : List WorkflowStep) :
    Nat → Ctx → List WorkflowStep → List String
  | _, _, [] => []
  | i, c, step :: rest =>
    expectedWarnings steps i (o.executeStep step c) ++
      Orchestrator.warningsFrom o steps (i + 1) (o.advance c step) rest

/-! ## What the specification says of substitution and of the step context -/

/-- The placeholder of a context key, the key between two pairs of braces. -/
def placeholderOf (key : String) : String := "\x7b\x7b" ++ key ++ "\x7d\x7d"

/-- Scan of the reference substitution: `skip` counts the characters of the
placeholder just replaced that are still to be dropped. -/
def substituteScan (context : Ctx) : Nat → List Char → List Char
  | _, [] => []
  | skip + 1, _ :: cs => substituteScan context skip cs
  | 0, c :: cs =>
    match context.find? (fun kv => (placeholderOf kv.1).data.isPrefixOf (c :: cs)) with
    | some kv => kv.2.format.data ++ substituteScan context ((placeholderOf kv.1).length - 1) cs
    | none => c :: substituteScan context 0 cs

/-- Reference substitution, following the words of the specification: the
template is read once from the left; each occurrence of the placeholder of a
context key is replaced by the rendering of that key's value, and all other
text is copied as it is. -/
def substituteReference (input : String) (context : Ctx) : String :=
  String.mk (substituteScan context 0 input.data)

/-- The context the specification passes to the agent for a step: the running
workflow context overridden, key by key, by the step's own map. -/
def overriddenContext (workflowCtx : Ctx) (step : WorkflowStep) : Ctx :=
  step.Context.foldl (fun c kv => GoMap.set c kv.1 (Value.str kv.2)) workflowCtx

/-! ## Sample inputs -/

/-- An engine with no installed definition and three embedded ones, carrying
the defaults `getAgentDefaults` gives to their names. -/
def sampleEngine : Engine :=
  { workingDir := "/work"
    context := []
    installed := fun _ _ => none
    embedded := fun name =>
      if name = "architect" then
        some { Name := "architect", Description := "Agent for software development tasks"
               Content := "", Mode := "primary", Temperature := mkRat 2 10
               Tools := [("write", false), ("edit", false), ("bash", false), ("read", true),
                 ("webfetch", true)] }
      else if name = "implementer" then
        some { Name := "implementer", Description := "Agent for software development tasks"
               Content := "", Mode := "primary", Temperature := mkRat 3 10
               Tools := [("write", true), ("edit", true), ("bash", true), ("read", true)] }
      else if name = "tester" then
        some { Name := "tester", Description := "Agent for software development tasks"
               Content := "", Mode := "subagent", Temperature := mkRat 2 10
               Tools := [("write", true), ("edit", true), ("bash", true), ("read", true)] }
      else none }

/-- The orchestrator over `sampleEngine`. -/
def sampleOrchestrator : Orchestrator := { engine := sampleEngine }

/-- Two required steps that both succeed. -/
def designWorkflow : Workflow :=
  { Name := "design"
    Description := "architect then implementer"
    Steps :=
      [ { AgentName := "architect", Input := "Design \x7b\x7bfeature\x7d\x7d", Required := true,
          Context := [] },
        { AgentName := "implementer", Input := "Implement \x7b\x7blast_output\x7d\x7d",
          Required := true, Context := [] } ]
    Context := [("feature", "login")] }

/-- Three required steps, the second naming an agent that cannot be resolved. -/
def haltingWorkflow : Workflow :=
  { Name := "halting"
    Description := "second step fails"
    Steps :=
      [ { AgentName := "architect", Input := "Design", Required := true, Context := [] },
        { AgentName := "ghost", Input := "Haunt", Required := true, Context := [] },
        { AgentName := "tester", Input := "Test", Required := true, Context := [] } ]
    Context := [] }

/-- Two optional steps, neither of which can be resolved. -/
def optionalWorkflow : Workflow :=
  { Name := "optional"
    Description := "every step optional and failing"
    Steps :=
      [ { AgentName := "ghost", Input := "Haunt", Required := false, Context := [] },
        { AgentName := "phantom", Input := "Glide", Required := false, Context := [] } ]
    Context := [] }

/-- An `architect` step followed by a step of another agent. -/
def mismatchWorkflow : Workflow :=
  { Name := "mismatch"
    Description := "architect then tester"
    Steps :=
      [ { AgentName := "architect", Input := "Design", Required := true, Context := [] },
        { AgentName := "tester", Input := "Test", Required := true, Context := [] } ]
    Context := [] }

/-- A context in which the value of one key contains the placeholder of
another key. -/
def nestedContext : Ctx :=
  [("a", Value.str "\x7b\x7bb\x7d\x7d"), ("b", Value.str "X")]

/-- The entries of `nestedContext`, visited in the other order. -/
def nestedContextSwapped : Ctx :=
  [("b", Value.str "X"), ("a", Value.str "\x7b\x7bb\x7d\x7d")]

/-- A step that carries a context override of its own. -/
def overrideStep : WorkflowStep :=
  { AgentName := "tester", Input := "Test on \x7b\x7benv\x7d\x7d", Required := true,
    Context := [("env", "prod")] }

/-- The warnings due for a list of recorded step results, the first of them
being the result of step `i` of `steps`. -/
def warningsOfResults (steps : List WorkflowStep) : Nat → List StepResult → List String
  | _, [] => []
  | i, sr :: rest => expectedWarnings steps i sr ++ warningsOfResults steps (i + 1) rest

/-! ## Go library functions on strings used by the parsers -/

/-- Go library function `strings.HasPrefix(s, prefix)`. -/
def HasPrefix (s pre : String) : Bool := pre.data.isPrefixOf s.data

/-- Go library function `strings.HasSuffix(s, suffix)`. -/
def HasSuffix (s suf : String) : Bool := suf.data.isSuffixOf s.data

/-- Go library function `strings.TrimPrefix(s, prefix)`. -/
def TrimPrefix (s pre : String) : String :=
  if HasPrefix s pre then String.mk (s.data.drop pre.data.length) else s

/-- Go library function `strings.TrimSuffix(s, suffix)`. -/
def TrimSuffix (s suf : String) : String :=
  if HasSuffix s suf then String.mk (s.data.take (s.data.length - suf.data.length)) else s

/-- Go library function `unicode.IsSpace`: the characters with the property
White_Space. -/
def isSpace (c : Char) : Bool :=
  let n := c.toNat
  (0x09 ≤ n && n ≤ 0x0D) || n = 0x20 || n = 0x85 || n = 0xA0 || n = 0x1680 ||
    (0x2000 ≤ n && n ≤ 0x200A) || n = 0x2028 || n = 0x2029 || n = 0x202F || n = 0x205F ||
    n = 0x3000

/-- Go library function `strings.TrimSpace(s)`: leading and trailing white
space removed. -/
def TrimSpace (s : String) : String :=
  String.mk ((s.data.dropWhile isSpace).reverse.dropWhile isSpace).reverse

/-- The pieces of a list of characters between the occurrences of `sep`. -/
def splitChars (sep : Char) : List Char → List (List Char)
  | [] => [[]]
  | c :: cs =>
    if c = sep then [] :: splitChars sep cs
    else
      match splitChars sep cs with
      | [] => [[c]]
      | piece :: pieces => (c :: piece) :: pieces

/-- Go library function `strings.Split(s, sep)` for a separator of one
character, as the source calls it with the newline. -/
def Split (s : String) (sep : Char) : List String :=
  (splitChars sep s.data).map String.mk

/-- Go library function `strings.Join(elems, sep)`. -/
def Join : List String → String → String
  | [], _ => ""
  | [a], _ => a
  | a :: b :: rest, sep => a ++ sep ++ Join (b :: rest) sep

/-- Number of bytes a character takes in a Go string. -/
def utf8Size (c : Char) : Nat :=
  if c.toNat < 0x80 then 1 else if c.toNat < 0x800 then 2 else if c.toNat < 0x10000 then 3 else 4

/-- Go builtin `len(s)` on a string: its number of bytes. -/
def byteLen (s : String) : Nat := (s.data.map utf8Size).sum

/-- The characters that lie within the first `n` bytes of a list of
characters. -/
def takeBytes : Nat → List Char → List Char
  | _, [] => []
  | n, c :: cs => if utf8Size c ≤ n then c :: takeBytes (n - utf8Size c) cs else []

/-- Go slice expression `s[:n]` on a string, for `n` at most `len(s)`: the
first `n` bytes.  A cut inside a character leaves bytes that form no character;
the model leaves them out. -/
def sliceTo (s : String) (n : Nat) : String := String.mk (takeBytes n s.data)

/-! ## `pkg/resources/agents.go` -/

/-- Entry of the embedded directory `embed/agents`: its name, whether it is a
directory, and what `ReadFile` gives for it, if it can be read. -/
structure DirEntry where
  Name : String
  IsDir : Bool
  Content : Option String
  deriving DecidableEq

/-- The loop of `extractDescription` over the lines: the trimmed non-empty
lines of the Role section. -/
def roleLines : List String → Bool → List String
  | [], _ => []
  | line :: rest, inRoleSection =>
    if HasPrefix line "## Role" then roleLines rest true
    else if HasPrefix line "## " && inRoleSection then []
    else if inRoleSection && line ≠ "" then TrimSpace line :: roleLines rest inRoleSection
    else roleLines rest inRoleSection

/-- `extractDescription`. -/
def extractDescription (content : String) : String :=
  let lines := Split content '\n'
  let description := roleLines lines false
  if description.length > 0 then
    let result := Join description " "
    if byteLen result > 100 then sliceTo result 97 ++ "..."
    else result
  else "Agent for software development tasks"

/-- `getAgentDefaults`: mode, temperature and tools of a name. -/
def getAgentDefaults (name : String) : String × Rat × GoMap Bool :=
  let tools : GoMap Bool := []
  if name = "implementer" then
    ("primary", mkRat 3 10,
      (((tools.set "write" true).set "edit" true).set "bash" true).set "read" true)
  else if name = "architect" then
    ("primary", mkRat 2 10,
      ((((tools.set "write" false).set "edit" false).set "bash" false).set "read" true).set
        "webfetch" true)
  else if name = "tester" then
    ("subagent", mkRat 2 10,
      (((tools.set "write" true).set "edit" true).set "bash" true).set "read" true)
  else if name = "debugger" then
    ("subagent", mkRat 1 10,
      (((tools.set "write" true).set "edit" true).set "bash" true).set "read" true)
  else if name = "reviewer" then
    ("subagent", mkRat 1 10,
      (((tools.set "write" false).set "edit" false).set "bash" false).set "read" true)
  else if name = "refactorer" then
    ("subagent", mkRat 2 10,
      (((tools.set "write" true).set "edit" true).set "bash" false).set "read" true)
  else if name = "documenter" then
    ("subagent", mkRat 3 10,
      (((tools.set "write" true).set "edit" true).set "bash" false).set "read" true)
  else if name = "researcher" then
    ("subagent", mkRat 4 10,
      ((((tools.set "write" false).set "edit" false).set "bash" false).set "read" true).set
        "webfetch" true)
  else
    ("subagent", mkRat 3 10, tools.set "read" true)

/-- `parseAgentContent`. -/
def parseAgentContent (filename content : String) : AgentResource :=
  let name := TrimSuffix filename ".md"
  let description := extractDescription content
  let defaults := getAgentDefaults name
  { Name := name
    Description := description
    Content := content
    Mode := defaults.1
    Temperature := defaults.2.1
    Tools := defaults.2.2 }

/-- `GetAvailableAgents`, over what `ReadDir` gives for the embedded
directory. -/
def GetAvailableAgents (readDir : Except String (List DirEntry)) :
    Except String (List AgentResource) :=
  match readDir with
  | .error err => .error ("failed to read agent directory: " ++ err)
  | .ok entries =>
    .ok (entries.filterMap (fun entry =>
      if entry.IsDir || !HasSuffix entry.Name ".md" then none
      else
        match entry.Content with
        | none => none
        | some content => some (parseAgentContent entry.Name content)))

/-- `GetAgent`. -/
def GetAgent (readDir : Except String (List DirEntry)) (name : String) :
    Except String AgentResource :=
  match GetAvailableAgents readDir with
  | .error err => .error err
  | .ok agents =>
    match agents.find? (fun agent => agent.Name = name) with
    | some agent => .ok agent
    | none => .error ("agent " ++ name ++ " not found")

/-! ## `pkg/agent/engine.go`: installed definitions -/

/-- One line of the loop of `parseFrontmatter`.  `scanFloat s` is the value
`fmt.Sscanf(s, "%f", &temp)` leaves in `temp`, which starts at 0. -/
def parseFrontmatterLine (scanFloat : String → Rat) (agent : AgentResource) (line : String) :
    AgentResource :=
  let line := TrimSpace line
  if line = "" then agent
  else if HasPrefix line "description:" then
    { agent with Description := TrimSpace (TrimPrefix line "description:") }
  else if HasPrefix line "mode:" then
    { agent with Mode := TrimSpace (TrimPrefix line "mode:") }
  else if HasPrefix line "temperature:" then
    { agent with Temperature := scanFloat (TrimSpace (TrimPrefix line "temperature:")) }
  else if HasPrefix line "tools:" then
    { agent with Tools := agent.Tools.set "read" true }
  else agent

/-- `Engine.parseFrontmatter`. -/
def parseFrontmatter (scanFloat : String → Rat) (frontmatter : String) (agent : AgentResource) :
    AgentResource :=
  (Split frontmatter '\n').foldl (parseFrontmatterLine scanFloat) agent

/-- The loop of `parseInstalledAgent` that looks for the two `---` lines:
`i` is the index of the first line of the list, `start` the index found so far
for `frontmatterStart` (`none` for -1); the result is the pair of
`frontmatterStart` and `frontmatterEnd`. -/
def frontmatterBounds : List String → Nat → Option Nat → Option Nat × Option Nat
  | [], _, start => (start, none)
  | line :: rest, i, start =>
    if line = "---" then
      match start with
      | none => frontmatterBounds rest (i + 1) (some i)
      | some s => (some s, some i)
    else frontmatterBounds rest (i + 1) start

/-- `Engine.parseInstalledAgent`; the error it returns is always nil. -/
def parseInstalledAgent (scanFloat : String → Rat) (name content : String) : AgentResource :=
  let lines := Split content '\n'
  let agent : AgentResource :=
    { Name := name, Description := "", Content := "", Mode := "", Temperature := 0, Tools := [] }
  match frontmatterBounds lines 0 none with
  | (some frontmatterStart, some frontmatterEnd) =>
    let frontmatter :=
      Join ((lines.drop (frontmatterStart + 1)).take (frontmatterEnd - (frontmatterStart + 1)))
        "\n"
    let agent := parseFrontmatter scanFloat frontmatter agent
    { agent with Content := Join (lines.drop (frontmatterEnd + 1)) "\n" }
  | _ =>
    { agent with Content := content, Mode := "subagent", Temperature := mkRat 3 10 }

/-- What the process finds outside itself: the agent files of the two scopes
(`readAgentFile scope name` is the text of `<agent directory of the scope>/<name>.md`
when the directory can be determined and the file read), the embedded
directory, the working directory, and the float scanner of the library. -/
structure Host where
  readAgentFile : Scope → String → Option String
  readEmbeddedDir : Except String (List DirEntry)
  workingDir : String
  scanFloat : String → Rat

/-- `Engine.loadInstalledAgent`; `none` stands for a non-nil error. -/
def loadInstalledAgent (h : Host) (name : String) (scope : Scope) : Option AgentResource :=
  match h.readAgentFile scope name with
  | none => none
  | some content => some (parseInstalledAgent h.scanFloat name content)

/-- `NewEngine`, on a host. -/
def NewEngine (h : Host) : Engine :=
  { workingDir := h.workingDir
    context := []
    installed := fun scope name => loadInstalledAgent h name scope
    embedded := fun name =>
      match GetAgent h.readEmbeddedDir name with
      | .ok agent => some agent
      | .error _ => none }

/-- `NewOrchestrator`, on a host. -/
def NewOrchestrator (h : Host) : Orchestrator := { engine := NewEngine h }

/-- A host with three embedded definitions and an entry that is none, two
user-scope files and two project-scope files; no text has a temperature
line. -/
def sampleHost : Host :=
  { readAgentFile := fun scope name =>
      match scope with
      | Scope.UserScope =>
        if name = "scribe" then
          some "---\ndescription: Takes notes\ntools:\n  read: true\n---\nWrite it down."
        else if name = "tester" then some "---\nmode: primary\n---\nUser tester"
        else none
      | Scope.ProjectScope =>
        if name = "tester" then some "---\nmode: subagent\n---\nProject tester"
        else if name = "helper" then some "Just a body"
        else none
    readEmbeddedDir := .ok
      [ { Name := "architect.md", IsDir := false,
          Content := some "# Architect\n\n## Role\nDesigns the system.\n\n## Rules\nBe brief." },
        { Name := "implementer.md", IsDir := false, Content := some "# Implementer" },
        { Name := "tester.md", IsDir := false, Content := some "# Tester" },
        { Name := "notes.txt", IsDir := false, Content := some "not an agent" } ]
    workingDir := "/work"
    scanFloat := fun _ => 0 }

/-- A request for the embedded `architect` of `sampleHost`. -/
def architectRequest : ExecuteRequest :=
  { AgentName := "architect", Input := "Design", Context := [], Tools := [] }

/-- The response `Engine.Execute` gives to `architectRequest` on `sampleHost`
(the empty failed response stands for an error, which does not occur). -/
def architectResponse : ExecuteResponse :=
  match (NewEngine sampleHost).Execute architectRequest with
  | .ok response => response
  | .error err => { Output := "", Success := false, Error := err, Context := [], Handoff := none }

/-- The rows of the table of built-in defaults as the specification lists
them: name, mode, temperature, tool permissions. -/
def defaultRows : List (String × String × Rat × GoMap Bool) :=
  [ ("implementer", "primary", 0.3,
      [("write", true), ("edit", true), ("bash", true), ("read", true)]),
    ("architect", "primary", 0.2,
      [("read", true), ("webfetch", true), ("write", false), ("edit", false), ("bash", false)]),
    ("tester", "subagent", 0.2,
      [("write", true), ("edit", true), ("bash", true), ("read", true)]),
    ("debugger", "subagent", 0.1,
      [("write", true), ("edit", true), ("bash", true), ("read", true)]),
    ("reviewer", "subagent", 0.1,
      [("read", true), ("write", false), ("edit", false), ("bash", false)]),
    ("refactorer", "subagent", 0.2,
      [("write", true), ("edit", true), ("read", true), ("bash", false)]),
    ("documenter", "subagent", 0.3,
      [("write", true), ("edit", true), ("read", true), ("bash", false)]),
    ("researcher", "subagent", 0.4,
      [("read", true), ("webfetch", true), ("write", false), ("edit", false), ("bash", false)]) ]

/-- The table of built-in defaults as the specification states it: the row of
the name, and for every other name a subagent of temperature 0.3 that may only
read. -/
def defaultsTable (name : String) : String × Rat × GoMap Bool :=
  match defaultRows.find? (fun row => name = row.1) with
  | some row => row.2
  | none => ("subagent", 0.3, [("read", true)])

/-! ## `pkg/orchestrator/workflow.go`: the predefined workflows -/

/-- `NewFeatureWorkflow`. -/
def NewFeatureWorkflow : Workflow :=
  { Name := "new-feature"
    Description := "Complete new feature development from research to documentation"
    Steps :=
      [ { AgentName := "researcher"
          Input := "Research requirements for: \x7b\x7bfeature_description\x7d\x7d"
          Required := true, Context := [] },
        { AgentName := "architect"
          Input := "Design architecture for feature based on research: \x7b\x7blast_output\x7d\x7d"
          Required := true, Context := [] },
        { AgentName := "implementer"
          Input := "Implement the feature according to the architecture: \x7b\x7blast_output\x7d\x7d"
          Required := true, Context := [] },
        { AgentName := "tester"
          Input := "Create comprehensive tests for the implemented feature: \x7b\x7blast_output\x7d\x7d"
          Required := true, Context := [] },
        { AgentName := "reviewer"
          Input := "Review the implementation and tests for quality: \x7b\x7blast_output\x7d\x7d"
          Required := true, Context := [] },
        { AgentName := "documenter"
          Input := "Create documentation for the completed feature: \x7b\x7blast_output\x7d\x7d"
          Required := false, Context := [] } ]
    Context := [] }

/-- `BugFixWorkflow`. -/
def BugFixWorkflow : Workflow :=
  { Name := "bug-fix"
    Description := "Fix bugs from diagnosis to verification"
    Steps :=
      [ { AgentName := "debugger"
          Input := "Debug and diagnose the issue: \x7b\x7bbug_description\x7d\x7d"
          Required := true, Context := [] },
        { AgentName := "implementer"
          Input := "Implement fix for the diagnosed issue: \x7b\x7blast_output\x7d\x7d"
          Required := true, Context := [] },
        { AgentName := "tester"
          Input := "Create tests to verify the fix: \x7b\x7blast_output\x7d\x7d"
          Required := true, Context := [] },
        { AgentName := "reviewer"
          Input := "Review the fix and tests: \x7b\x7blast_output\x7d\x7d"
          Required := true, Context := [] } ]
    Context := [] }

/-- `CodeImprovementWorkflow`. -/
def CodeImprovementWorkflow : Workflow :=
  { Name := "code-improvement"
    Description := "Improve code quality through refactoring and optimization"
    Steps :=
      [ { AgentName := "refactorer"
          Input := "Analyze and refactor the code for improvement: \x7b\x7bcode_location\x7d\x7d"
          Required := true, Context := [] },
        { AgentName := "tester"
          Input := "Ensure tests still pass after refactoring: \x7b\x7blast_output\x7d\x7d"
          Required := true, Context := [] },
        { AgentName := "reviewer"
          Input := "Review the refactored code: \x7b\x7blast_output\x7d\x7d"
          Required := true, Context := [] } ]
    Context := [] }

/-- `GetWorkflow`. -/
def GetWorkflow (name : String) : Except String Workflow :=
  if name = "new-feature" then .ok NewFeatureWorkflow
  else if name = "bug-fix" then .ok BugFixWorkflow
  else if name = "code-improvement" then .ok CodeImprovementWorkflow
  else .error ("workflow '" ++ name ++ "' not found")

/-- `ListWorkflows`. -/
def ListWorkflows : List Workflow :=
  [NewFeatureWorkflow, BugFixWorkflow, CodeImprovementWorkflow]

/-! ## `pkg/installer/agents.go` -/

/-- `generateToolsConfig`, the tools visited in the order of the list. -/
def generateToolsConfig (tools : GoMap Bool) : String :=
  if tools.length = 0 then "tools: \x7b\x7d"
  else
    tools.foldl
      (fun config kv =>
        let status := if kv.2 then "true" else "false"
        config ++ ("  " ++ kv.1 ++ ": " ++ status ++ "\n"))
      "tools:\n"

/-- `generateOpenCodeAgentFile`. -/
def generateOpenCodeAgentFile (agent : AgentResource) : String :=
  let toolsConfig := generateToolsConfig agent.Tools
  let frontmatter :=
    "---\ndescription: " ++ agent.Description ++ "\nmode: " ++ agent.Mode ++
      "\nmodel: anthropic/claude-sonnet-4-20250514\ntemperature: " ++
      fmtF1 agent.Temperature ++ "\n" ++ toolsConfig ++ "\n---\n\n"
  frontmatter ++ agent.Content

/-! ## What the specification says of the parsers -/

/-- The key of a metadata line: the text before the first colon of the trimmed
line, if the line has a colon. -/
def lineKey (line : String) : Option String :=
  let t := (TrimSpace line).data
  if ':' ∈ t then some (String.mk (t.takeWhile (fun c => c ≠ ':'))) else none

/-- The metadata block has a `tools:` line. -/
def hasToolsLine (frontmatter : String) : Bool :=
  (Split frontmatter '\n').any (fun line => HasPrefix (TrimSpace line) "tools:")

/-- Reference description, following the words of the specification: the lines
after the first Role heading up to the next heading, the non-empty ones trimmed
and joined by single spaces; a joined text of more than 100 characters is cut
to its first 97 characters followed by three dots; without such lines the
fixed text. -/
def extractDescriptionReference (content : String) : String :=
  let lines := Split content '\n'
  let afterRole := (lines.dropWhile (fun line => !HasPrefix line "## Role")).drop 1
  let roleSection := afterRole.takeWhile (fun line => !HasPrefix line "## ")
  let kept := (roleSection.filter (fun line => line ≠ "")).map TrimSpace
  if kept.length > 0 then
    let joined := Join kept " "
    if joined.length > 100 then String.mk (joined.data.take 97) ++ "..."
    else joined
  else "Agent for software development tasks"

/-- A text that does not begin with a `---` line and has two `---` lines
further down. -/
def lateFrontmatterText : String := "intro\n---\nmode: primary\n---\nbody"

/-- A body whose Role section is the letter `a` followed by fifty times the
letter `é`, which takes two bytes: 51 characters, 101 bytes. -/
def accentedRoleText : String :=
  "## Role\n" ++ String.mk ('a' :: List.replicate 50 'é')

/-- A definition as the installer receives it. -/
def sampleAgent : AgentResource :=
  { Name := "reviewer"
    Description := "Reviews code for quality"
    Content := "# Reviewer\n\n## Role\nReviews code."
    Mode := "subagent"
    Temperature := mkRat 1 10
    Tools := [("write", false), ("edit", false), ("bash", false), ("read", true)] }

/-- A line that is not the delimiter `---` and that `parseFrontmatterLine`
reads neither as a description nor as a mode. -/
def neutralLine (line : String) : Bool :=
  line ≠ "---" && !HasPrefix (TrimSpace line) "description:" &&
    !HasPrefix (TrimSpace line) "mode:"

/-- The tool names that `getAgentDefaults` gives permissions for. -/
def knownToolNames : List String := ["read", "write", "edit", "bash", "webfetch"]

/-- A host whose user scope holds a file `architect.md` without metadata
block, beside the embedded definitions of `sampleHost`. -/
def plainArchitectHost : Host :=
  { readAgentFile := fun scope name =>
      match scope with
      | Scope.UserScope => if name = "architect" then some "You design systems." else none
      | Scope.ProjectScope => none
    readEmbeddedDir := sampleHost.readEmbeddedDir
    workingDir := "/work"
    scanFloat := fun _ => 0 }

/-! ## Lemmas on the engine and on one turn of the loop -/

/-- A step result carries a handoff suggestion only when the step succeeded. -/
theorem executeStep_handoff_success (o : Orchestrator) (step : WorkflowStep) (c : Ctx)
    (h : (o.executeStep step c).Handoff ≠ none) : (o.executeStep step c).Success = true := by
  unfold Orchestrator.executeStep Engine.Execute at *
  cases hl : o.engine.loadAgent (o.stepRequest step c).AgentName with
  | error err => simp [hl] at h
  | ok agent =>
    simp only [hl] at h ⊢
    by_cases hp : agent.Mode = "primary"
    · simp [hp, Engine.executePrimaryAgent]
    · by_cases hs : agent.Mode = "subagent"
      · simp [hs, Engine.executeSubAgent]
      · simp [hp, hs] at h

/-- One turn of the loop of `ExecuteWorkflow`. -/
theorem runSteps_cons (o : Orchestrator) (steps : List WorkflowStep) (i : Nat)
    (step : WorkflowStep) (rest : List WorkflowStep) (result : WorkflowResult)
    (printed : List String) :
    o.runSteps steps i (step :: rest) result printed =
      if step.Required = true ∧ (o.executeStep step result.Context).Success = false then
        { result :=
            { result with
              Steps := result.Steps ++ [o.executeStep step result.Context]
              Success := false
              Error := "Required step " ++ toString (i + 1) ++ " (" ++ step.AgentName ++
                ") failed: " ++ (o.executeStep step result.Context).Error }
          err := none
          printed := printed }
      else
        o.runSteps steps (i + 1) rest
          { result with
            Steps := result.Steps ++ [o.executeStep step result.Context]
            Context := o.advance result.Context step }
          (printed ++ expectedWarnings steps i (o.executeStep step result.Context)) := by
  rw [Orchestrator.runSteps]
  have hho := executeStep_handoff_success o step result.Context
  cases hs : (o.executeStep step result.Context).Success with
  | false =>
    have hnone : (o.executeStep step result.Context).Handoff = none := by
      by_contra hne
      rw [hho hne] at hs
      exact Bool.noConfusion hs
    cases hr : step.Required with
    | true => simp [hs]
    | false => simp [hs, hnone, Orchestrator.advance, expectedWarnings]
  | true =>
    cases hh : (o.executeStep step result.Context).Handoff with
    | none => simp [hs, hh, Orchestrator.advance, expectedWarnings]
    | some handoff =>
      by_cases hi : i < steps.length - 1
      · have hi1 : i + 1 < steps.length := by omega
        by_cases hn : handoff.AgentName = steps[i + 1].AgentName
        · simp [hs, hh, hi, hn, Orchestrator.advance, expectedWarnings, List.getElem?_eq_getElem hi1]
        · simp [hs, hh, hi, hn, Orchestrator.advance, expectedWarnings,
            List.getElem?_eq_getElem hi1, mismatchWarning]
      · have hi1 : steps[i + 1]? = none := List.getElem?_eq_none (by omega)
        simp [hs, hh, hi, hi1, Orchestrator.advance, expectedWarnings]

theorem failsFrom_zero (o : Orchestrator) (c : Ctx) (step : WorkflowStep)
    (rest : List WorkflowStep) :
    o.failsFrom c (step :: rest) 0 = (step.Required && !(o.executeStep step c).Success) := by
  simp [Orchestrator.failsFrom, Orchestrator.contextAfter]

theorem failsFrom_succ (o : Orchestrator) (c : Ctx) (step : WorkflowStep)
    (rest : List WorkflowStep) (k : Nat) :
    o.failsFrom c (step :: rest) (k + 1) = o.failsFrom (o.advance c step) rest k := by
  simp [Orchestrator.failsFrom, Orchestrator.contextAfter]

/-- The loop when no required step fails: every step is recorded. -/
theorem runSteps_complete (o : Orchestrator) (steps : List WorkflowStep) :
    ∀ (rest : List WorkflowStep) (i : Nat) (result : WorkflowResult) (printed : List String),
      (∀ k, o.failsFrom result.Context rest k = false) →
      o.runSteps steps i rest result printed =
        { result :=
            { result with
              Steps := result.Steps ++ o.resultsFrom result.Context rest
              Context := o.contextAfter result.Context rest }
          err := none
          printed := printed ++ o.warningsFrom steps i result.Context rest } := by
  intro rest
  induction rest with
  | nil =>
    intro i result printed _
    simp [Orchestrator.runSteps, Orchestrator.resultsFrom, Orchestrator.contextAfter,
      Orchestrator.warningsFrom]
  | cons step rest ih =>
    intro i result printed hno
    have h0 := hno 0
    rw [failsFrom_zero] at h0
    have hcond : ¬ (step.Required = true ∧ (o.executeStep step result.Context).Success = false) := by
      intro hc
      simp [hc.1, hc.2] at h0
    rw [runSteps_cons, if_neg hcond, ih]
    · simp [Orchestrator.resultsFrom, Orchestrator.contextAfter, Orchestrator.warningsFrom]
    · intro k
      have hk := hno (k + 1)
      rw [failsFrom_succ] at hk
      exact hk

/-- The loop when step `k` of the remaining list is the first required step
that fails: the loop returns at that step. -/
theorem runSteps_halt (o : Orchestrator) (steps : List WorkflowStep) :
    ∀ (rest : List WorkflowStep) (k i : Nat) (result : WorkflowResult) (printed : List String),
      o.failsFrom result.Context rest k = true →
      (∀ j, j < k → o.failsFrom result.Context rest j = false) →
      ∃ step, rest[k]? = some step ∧
        o.runSteps steps i rest result printed =
          { result :=
              { result with
                Steps := result.Steps ++ o.resultsFrom result.Context (rest.take (k + 1))
                Success := false
                Error := "Required step " ++ toString (i + k + 1) ++ " (" ++ step.AgentName ++
                  ") failed: " ++
                  (o.executeStep step (o.contextAfter result.Context (rest.take k))).Error
                Context := o.contextAfter result.Context (rest.take k) }
            err := none
            printed := printed ++ o.warningsFrom steps i result.Context (rest.take k) } := by
  intro rest
  induction rest with
  | nil =>
    intro k i result printed hk _
    simp [Orchestrator.failsFrom] at hk
  | cons step rest ih =>
    intro k i result printed hk hbefore
    cases k with
    | zero =>
      rw [failsFrom_zero] at hk
      have hcond : step.Required = true ∧ (o.executeStep step result.Context).Success = false := by
        simpa using hk
      refine ⟨step, by simp, ?_⟩
      rw [runSteps_cons, if_pos hcond]
      simp [Orchestrator.resultsFrom, Orchestrator.contextAfter, Orchestrator.warningsFrom]
    | succ k =>
      have h0 := hbefore 0 (Nat.succ_pos k)
      rw [failsFrom_zero] at h0
      have hcond : ¬ (step.Required = true ∧ (o.executeStep step result.Context).Success = false) := by
        intro hc
        simp [hc.1, hc.2] at h0
      rw [failsFrom_succ] at hk
      obtain ⟨st, hst, hrun⟩ := ih k (i + 1)
        { result with
          Steps := result.Steps ++ [o.executeStep step result.Context]
          Context := o.advance result.Context step }
        (printed ++ expectedWarnings steps i (o.executeStep step result.Context)) hk
        (by
          intro j hj
          have := hbefore (j + 1) (Nat.succ_lt_succ hj)
          rw [failsFrom_succ] at this
          exact this)
      refine ⟨st, by simpa using hst, ?_⟩
      rw [runSteps_cons, if_neg hcond, hrun]
      simp [Orchestrator.resultsFrom, Orchestrator.contextAfter, Orchestrator.warningsFrom,
        Nat.add_assoc, Nat.add_comm 1 k]

/-! ## The run as a whole -/

theorem resultsFrom_length (o : Orchestrator) :
    ∀ (rest : List WorkflowStep) (c : Ctx), (o.resultsFrom c rest).length = rest.length := by
  intro rest
  induction rest with
  | nil => intro c; rfl
  | cons step rest ih => intro c; simp [Orchestrator.resultsFrom, ih]

theorem resultsFrom_getElem? (o : Orchestrator) :
    ∀ (rest : List WorkflowStep) (c : Ctx) (k : Nat),
      (o.resultsFrom c rest)[k]? =
        (rest[k]?).map (fun step => o.executeStep step (o.contextAfter c (rest.take k))) := by
  intro rest
  induction rest with
  | nil => intro c k; simp [Orchestrator.resultsFrom]
  | cons step rest ih =>
    intro c k
    cases k with
    | zero => simp [Orchestrator.resultsFrom, Orchestrator.contextAfter]
    | succ k =>
      simp only [Orchestrator.resultsFrom, List.getElem?_cons_succ, ih, List.take_succ_cons]
      simp [Orchestrator.contextAfter]

/-- Either no required step fails, or there is a first one that does. -/
theorem first_failure_cases (o : Orchestrator) (c : Ctx) (rest : List WorkflowStep) :
    (∀ k, o.failsFrom c rest k = false) ∨
      ∃ k, o.failsFrom c rest k = true ∧ ∀ j, j < k → o.failsFrom c rest j = false := by
  by_cases h : ∃ k, o.failsFrom c rest k = true
  · right
    refine ⟨Nat.find h, Nat.find_spec h, ?_⟩
    intro j hj
    have := Nat.find_min h hj
    simpa using this
  · left
    intro k
    by_contra hk
    exact h ⟨k, by simpa using hk⟩

theorem failsFrom_lt_length (o : Orchestrator) (c : Ctx) (rest : List WorkflowStep) (k : Nat)
    (h : o.failsFrom c rest k = true) : k < rest.length := by
  by_contra hk
  have : rest[k]? = none := List.getElem?_eq_none (by omega)
  simp [Orchestrator.failsFrom, this] at h

/-- The two ways a call of `ExecuteWorkflow` ends. -/
theorem ExecuteWorkflow_cases (o : Orchestrator) (w : Workflow) :
    ((∀ k, o.requiredFailureAt w k = false) ∧
      o.ExecuteWorkflow w =
        { result :=
            { WorkflowName := w.Name
              Steps := o.resultsFrom (initialContext w) w.Steps
              Success := true
              Error := ""
              Context := o.contextAt w w.Steps.length }
          err := none
          printed := o.warningsFrom w.Steps 0 (initialContext w) w.Steps }) ∨
    (∃ k step, w.Steps[k]? = some step ∧ o.requiredFailureAt w k = true ∧
      (∀ j, j < k → o.requiredFailureAt w j = false) ∧
      o.ExecuteWorkflow w =
        { result :=
            { WorkflowName := w.Name
              Steps := o.resultsFrom (initialContext w) (w.Steps.take (k + 1))
              Success := false
              Error := "Required step " ++ toString (k + 1) ++ " (" ++ step.AgentName ++
                ") failed: " ++ (o.executeStep step (o.contextAt w k)).Error
              Context := o.contextAt w k }
          err := none
          printed := o.warningsFrom w.Steps 0 (initialContext w) (w.Steps.take k) }) := by
  rcases first_failure_cases o (initialContext w) w.Steps with hno | ⟨k, hk, hbefore⟩
  · left
    refine ⟨hno, ?_⟩
    have := runSteps_complete o w.Steps w.Steps 0
      { WorkflowName := w.Name, Steps := [], Success := true, Error := "",
        Context := initialContext w } [] hno
    simpa [Orchestrator.ExecuteWorkflow, initialContext, Orchestrator.contextAt] using this
  · right
    obtain ⟨step, hstep, hrun⟩ := runSteps_halt o w.Steps w.Steps k 0
      { WorkflowName := w.Name, Steps := [], Success := true, Error := "",
        Context := initialContext w } [] hk hbefore
    refine ⟨k, step, hstep, hk, hbefore, ?_⟩
    simpa [Orchestrator.ExecuteWorkflow, initialContext, Orchestrator.contextAt] using hrun

theorem contextAt_succ (o : Orchestrator) (w : Workflow) (k : Nat) (step : WorkflowStep)
    (hstep : w.Steps[k]? = some step) :
    o.contextAt w (k + 1) = o.advance (o.contextAt w k) step := by
  simp [Orchestrator.contextAt, Orchestrator.contextAfter, List.take_succ, hstep,
    List.foldl_append]

theorem resultsFrom_take_getElem? (o : Orchestrator) (c : Ctx) (rest : List WorkflowStep)
    (n i : Nat) (hi : i < n) :
    (o.resultsFrom c (rest.take n))[i]? =
      (rest[i]?).map (fun step => o.executeStep step (o.contextAfter c (rest.take i))) := by
  rw [resultsFrom_getElem?, List.getElem?_take_of_lt hi, List.take_take,
    Nat.min_eq_left (Nat.le_of_lt hi)]

/-- Every recorded step result is the result of executing the step of the same
index at its step boundary. -/
theorem ExecuteWorkflow_steps_getElem? (o : Orchestrator) (w : Workflow) (i : Nat)
    (hi : i < (o.ExecuteWorkflow w).result.Steps.length) :
    (o.ExecuteWorkflow w).result.Steps[i]? = o.stepResultAt w i := by
  rcases ExecuteWorkflow_cases o w with ⟨_, hrun⟩ | ⟨k, step, _, hk, _, hrun⟩
  · rw [hrun]
    simp [resultsFrom_getElem?, Orchestrator.stepResultAt, Orchestrator.contextAt]
  · rw [hrun] at hi ⊢
    simp only [resultsFrom_length, List.length_take] at hi
    have hik : i < k + 1 := lt_of_lt_of_le hi (Nat.min_le_left _ _)
    simp [resultsFrom_take_getElem? o _ _ _ _ hik, Orchestrator.stepResultAt,
      Orchestrator.contextAt]

/-- A step before which no required step fails is executed and recorded. -/
theorem ExecuteWorkflow_reaches (o : Orchestrator) (w : Workflow) (k : Nat)
    (hk : k < w.Steps.length) (hbefore : ∀ j, j < k → o.requiredFailureAt w j = false) :
    k < (o.ExecuteWorkflow w).result.Steps.length := by
  rcases ExecuteWorkflow_cases o w with ⟨_, hrun⟩ | ⟨k', step, _, hk', _, hrun⟩
  · rw [hrun]
    simpa [resultsFrom_length] using hk
  · have hle : k ≤ k' := by
      by_contra hlt
      rw [hbefore k' (by omega)] at hk'
      exact Bool.noConfusion hk'
    have hlt := failsFrom_lt_length o _ _ k' hk'
    rw [hrun]
    simp only [resultsFrom_length, List.length_take]
    omega

theorem requiredFailureAt_iff (o : Orchestrator) (w : Workflow) (k : Nat) :
    o.requiredFailureAt w k = true ↔
      ∃ step, w.Steps[k]? = some step ∧ step.Required = true ∧
        (o.executeStep step (o.contextAt w k)).Success = false := by
  unfold Orchestrator.requiredFailureAt Orchestrator.failsFrom Orchestrator.contextAt
  cases h : w.Steps[k]? with
  | none => simp
  | some step => simp

theorem containsChars_iff (sub : List Char) :
    ∀ s : List Char, containsChars sub s = true ↔ sub <:+: s := by
  intro s
  induction s with
  | nil => simp [containsChars, List.infix_nil, List.prefix_nil]
  | cons c cs ih => simp [containsChars, List.infix_cons_iff, ih]

theorem data_infix_of_append (p s t : String) : Contains (p ++ s ++ t) s = true := by
  unfold Contains
  rw [containsChars_iff]
  exact ⟨p.data, t.data, by simp [String.data_append]⟩

/-- The run when step `k` is the first required step that fails. -/
theorem ExecuteWorkflow_of_first_failure (o : Orchestrator) (w : Workflow) (k : Nat)
    (hk : o.requiredFailureAt w k = true)
    (hfirst : ∀ j, j < k → o.requiredFailureAt w j = false) :
    ∃ step, w.Steps[k]? = some step ∧
      o.ExecuteWorkflow w =
        { result :=
            { WorkflowName := w.Name
              Steps := o.resultsFrom (initialContext w) (w.Steps.take (k + 1))
              Success := false
              Error := "Required step " ++ toString (k + 1) ++ " (" ++ step.AgentName ++
                ") failed: " ++ (o.executeStep step (o.contextAt w k)).Error
              Context := o.contextAt w k }
          err := none
          printed := o.warningsFrom w.Steps 0 (initialContext w) (w.Steps.take k) } := by
  rcases ExecuteWorkflow_cases o w with ⟨hno, _⟩ | ⟨k', step, hstep, hk', hbefore', hrun⟩
  · rw [hno k] at hk
    exact Bool.noConfusion hk
  · have hkk : k' = k := by
      rcases Nat.lt_trichotomy k' k with hlt | heq | hgt
      · rw [hfirst k' hlt] at hk'
        exact Bool.noConfusion hk'
      · exact heq
      · rw [hbefore' k hgt] at hk
        exact Bool.noConfusion hk
    subst hkk
    exact ⟨step, hstep, hrun⟩

/-! ## Step count -/

/-- C1: the number of step results of `ExecuteWorkflow` is the number of steps
of the workflow when no required step fails, and otherwise the 1-based index
of the first required step that fails. -/
theorem ExecuteWorkflow_step_count (o : Orchestrator) (w : Workflow) :
    ((∀ k, k < w.Steps.length → o.requiredFailureAt w k = false) →
      (o.ExecuteWorkflow w).result.Steps.length = w.Steps.length) ∧
    (∀ k, o.requiredFailureAt w k = true →
      (∀ j, j < k → o.requiredFailureAt w j = false) →
      (o.ExecuteWorkflow w).result.Steps.length = k + 1) := by
  constructor
  · intro hno
    rcases ExecuteWorkflow_cases o w with ⟨_, hrun⟩ | ⟨k, step, _, hk, _, _⟩
    · rw [hrun]
      simp [resultsFrom_length]
    · have hlt := failsFrom_lt_length o _ _ k hk
      rw [hno k hlt] at hk
      exact Bool.noConfusion hk
  · intro k hk hbefore
    obtain ⟨step, _, hrun⟩ := ExecuteWorkflow_of_first_failure o w k hk hbefore
    have hlt := failsFrom_lt_length o _ _ k hk
    rw [hrun]
    simp [resultsFrom_length]
    omega

/-- Witness of C1 on a workflow that completes and on one that halts at its
second step. -/
theorem ExecuteWorkflow_step_count_witness :
    (sampleOrchestrator.ExecuteWorkflow designWorkflow).result.Steps.length = 2 ∧
    (sampleOrchestrator.ExecuteWorkflow haltingWorkflow).result.Steps.length = 1 + 1 :=
  ⟨(ExecuteWorkflow_step_count sampleOrchestrator designWorkflow).1 (by decide),
   (ExecuteWorkflow_step_count sampleOrchestrator haltingWorkflow).2 1 (by decide) (by decide)⟩

/-! ## Maps built by assignment -/

theorem GoMap.get_set {α : Type} (m : GoMap α) (k : String) (v : α) (k' : String) :
    GoMap.get (GoMap.set m k v) k' = if k = k' then some v else GoMap.get m k' := by
  induction m with
  | nil => simp [GoMap.set, GoMap.get]
  | cons kv rest ih =>
    obtain ⟨k0, v0⟩ := kv
    by_cases h0 : k0 = k
    · subst h0
      by_cases hk : k0 = k' <;> simp [GoMap.set, GoMap.get, hk]
    · by_cases hk : k0 = k'
      · subst hk
        have hne : ¬ k = k0 := fun h => h0 h.symm
        simp [GoMap.set, GoMap.get, h0, hne]
      · simp [GoMap.set, GoMap.get, h0, hk, ih]

theorem GoMap.keys_set {α : Type} (m : GoMap α) (k : String) (v : α) :
    (GoMap.set m k v).map Prod.fst =
      if k ∈ m.map Prod.fst then m.map Prod.fst else m.map Prod.fst ++ [k] := by
  induction m with
  | nil => simp [GoMap.set]
  | cons kv rest ih =>
    obtain ⟨k0, v0⟩ := kv
    by_cases h0 : k0 = k
    · subst h0
      simp [GoMap.set]
    · have hne : ¬ k = k0 := fun h => h0 h.symm
      by_cases hmem : k ∈ rest.map Prod.fst
      · simp only [GoMap.set, h0, if_false, List.map_cons, ih, hmem, if_true, List.mem_cons,
          or_true]
      · simp only [GoMap.set, h0, if_false, List.map_cons, ih, hmem, List.mem_cons, hne,
          or_self, List.cons_append]

theorem GoMap.nodup_set {α : Type} (m : GoMap α) (k : String) (v : α)
    (h : (m.map Prod.fst).Nodup) : ((GoMap.set m k v).map Prod.fst).Nodup := by
  rw [GoMap.keys_set]
  by_cases hmem : k ∈ m.map Prod.fst
  · rw [if_pos hmem]
    exact h
  · rw [if_neg hmem]
    exact List.Nodup.append h (List.nodup_singleton k)
      (by
        intro a ha hb
        rw [List.mem_singleton] at hb
        exact hmem (hb ▸ ha))

theorem GoMap.nodup_assignAll {α : Type} (src : GoMap α) :
    ∀ dst : GoMap α, (dst.map Prod.fst).Nodup →
      ((GoMap.assignAll dst src).map Prod.fst).Nodup := by
  induction src with
  | nil => intro dst h; exact h
  | cons kv rest ih =>
    intro dst h
    exact ih _ (GoMap.nodup_set dst kv.1 kv.2 h)

theorem GoMap.get_eq_none_of_not_mem {α : Type} (m : GoMap α) (k : String)
    (h : k ∉ m.map Prod.fst) : GoMap.get m k = none := by
  induction m with
  | nil => rfl
  | cons kv rest ih =>
    obtain ⟨k0, v0⟩ := kv
    simp only [List.map_cons, List.mem_cons, not_or] at h
    have hne : ¬ k0 = k := fun h0 => h.1 h0.symm
    simp [GoMap.get, hne, ih h.2]

/-- A map with one entry per key, copied entry by entry into another map, wins
on every key it binds. -/
theorem GoMap.get_assignAll {α : Type} (src : GoMap α) (k : String) :
    ∀ dst : GoMap α, (src.map Prod.fst).Nodup →
      GoMap.get (GoMap.assignAll dst src) k =
        match GoMap.get src k with
        | some v => some v
        | none => GoMap.get dst k := by
  induction src with
  | nil => intro dst _; rfl
  | cons kv rest ih =>
    intro dst h
    obtain ⟨k0, v0⟩ := kv
    rw [List.map_cons, List.nodup_cons] at h
    have hstep : GoMap.assignAll dst ((k0, v0) :: rest) =
        GoMap.assignAll (GoMap.set dst k0 v0) rest := rfl
    rw [hstep, ih _ h.2, GoMap.get_set]
    by_cases hk : k0 = k
    · subst hk
      simp [GoMap.get, GoMap.get_eq_none_of_not_mem rest k0 h.1]
    · simp [GoMap.get, hk]

/-! ## The reserved keys after two successful steps -/

theorem prepareContext_nodup (e : Engine) (c : Ctx) :
    ((e.prepareContext c).map Prod.fst).Nodup := by
  unfold Engine.prepareContext
  exact GoMap.nodup_set _ _ _
    (GoMap.nodup_assignAll _ _ (GoMap.nodup_assignAll _ _ List.nodup_nil))

theorem executeStep_context_of_success (o : Orchestrator) (step : WorkflowStep) (c : Ctx)
    (h : (o.executeStep step c).Success = true) :
    (o.executeStep step c).Context = o.engine.prepareContext c := by
  unfold Orchestrator.executeStep Engine.Execute at *
  cases hl : o.engine.loadAgent (o.stepRequest step c).AgentName with
  | error err => simp [hl] at h
  | ok agent =>
    simp only [hl] at h ⊢
    by_cases hp : agent.Mode = "primary"
    · simp [hp, Engine.executePrimaryAgent, Orchestrator.stepRequest]
    · by_cases hs : agent.Mode = "subagent"
      · simp [hs, Engine.executeSubAgent, Orchestrator.stepRequest]
      · simp [hp, hs] at h

/-- A key other than `working_dir` that the running context binds before a step
keeps its binding through the step, also when the step succeeds and the key is
`last_output` or `last_agent`: the merge of the returned context restores it. -/
theorem advance_keeps_bound_key (o : Orchestrator) (c : Ctx) (step : WorkflowStep)
    (key : String) (v : Value) (hc : (c.map Prod.fst).Nodup) (hkey : key ≠ "working_dir")
    (hget : GoMap.get c key = some v) : GoMap.get (o.advance c step) key = some v := by
  cases hs : (o.executeStep step c).Success with
  | false => simpa [Orchestrator.advance, hs] using hget
  | true =>
    have hctx := executeStep_context_of_success o step c hs
    have hprep : GoMap.get (o.engine.prepareContext c) key = some v := by
      unfold Engine.prepareContext
      have hne : ¬ "working_dir" = key := fun h => hkey h.symm
      rw [GoMap.get_set, if_neg hne, GoMap.get_assignAll c key _ hc, hget]
    have hadv : o.advance c step =
        GoMap.assignAll
          ((c.set "last_output" (Value.str (o.executeStep step c).Output)).set "last_agent"
            (Value.str step.AgentName))
          (o.engine.prepareContext c) := by
      simp [Orchestrator.advance, hs, hctx]
    rw [hadv, GoMap.get_assignAll _ key _ (prepareContext_nodup _ _), hprep]

theorem advance_nodup (o : Orchestrator) (c : Ctx) (step : WorkflowStep)
    (hc : (c.map Prod.fst).Nodup) : ((o.advance c step).map Prod.fst).Nodup := by
  cases hs : (o.executeStep step c).Success with
  | false => simpa [Orchestrator.advance, hs] using hc
  | true =>
    have hadv : o.advance c step =
        GoMap.assignAll
          ((c.set "last_output" (Value.str (o.executeStep step c).Output)).set "last_agent"
            (Value.str step.AgentName))
          (o.executeStep step c).Context := by
      simp [Orchestrator.advance, hs]
    rw [hadv]
    exact GoMap.nodup_assignAll _ _ (GoMap.nodup_set _ _ _ (GoMap.nodup_set _ _ _ hc))

theorem initialContext_nodup (w : Workflow) : ((initialContext w).map Prod.fst).Nodup := by
  unfold initialContext
  have hgen : ∀ (src : GoMap String) (dst : Ctx), (dst.map Prod.fst).Nodup →
      ((src.foldl (fun c kv => GoMap.set c kv.1 (Value.str kv.2)) dst).map Prod.fst).Nodup := by
    intro src
    induction src with
    | nil => intro dst h; exact h
    | cons kv rest ih => intro dst h; exact ih _ (GoMap.nodup_set dst kv.1 _ h)
  exact hgen _ _ List.nodup_nil

theorem contextAt_nodup (o : Orchestrator) (w : Workflow) :
    ∀ k, ((o.contextAt w k).map Prod.fst).Nodup := by
  intro k
  induction k with
  | zero => simpa [Orchestrator.contextAt, Orchestrator.contextAfter] using initialContext_nodup w
  | succ k ih =>
    cases hstep : w.Steps[k]? with
    | none =>
      have hlen : w.Steps.length ≤ k := by
        by_contra hlt
        rw [List.getElem?_eq_getElem (by omega)] at hstep
        exact Option.noConfusion hstep
      have : o.contextAt w (k + 1) = o.contextAt w k := by
        simp [Orchestrator.contextAt, List.take_of_length_le hlen,
          List.take_of_length_le (Nat.le_succ_of_le hlen)]
      rw [this]
      exact ih
    | some step =>
      rw [contextAt_succ o w k step hstep]
      exact advance_nodup o _ step ih

/-- Once the running context binds `last_output` or `last_agent`, the binding
is the same at every later step boundary. -/
theorem reserved_key_frozen (o : Orchestrator) (w : Workflow) (key : String) (v : Value)
    (hkey : key ≠ "working_dir") (k : Nat) (hget : GoMap.get (o.contextAt w k) key = some v) :
    ∀ n, GoMap.get (o.contextAt w (k + n)) key = some v := by
  intro n
  induction n with
  | zero => exact hget
  | succ n ih =>
    cases hstep : w.Steps[k + n]? with
    | none =>
      have hlen : w.Steps.length ≤ k + n := by
        by_contra hlt
        rw [List.getElem?_eq_getElem (by omega)] at hstep
        exact Option.noConfusion hstep
      have : o.contextAt w (k + (n + 1)) = o.contextAt w (k + n) := by
        simp [Orchestrator.contextAt, List.take_of_length_le hlen,
          List.take_of_length_le (Nat.le_succ_of_le hlen), ← Nat.add_assoc]
      rw [this]
      exact ih
    | some step =>
      rw [← Nat.add_assoc, contextAt_succ o w (k + n) step hstep]
      exact advance_keeps_bound_key o _ step key v (contextAt_nodup o w _) hkey ih

/-- C2, the code at a failing input: both steps of `designWorkflow` succeed, yet
in the final context `last_agent` is the agent of the first step and
`last_output` is the output of the first step, not that of the second, the most
recently successful one. -/
theorem last_output_not_advanced :
    ((sampleOrchestrator.ExecuteWorkflow designWorkflow).result.Steps.map
        (fun sr => (sr.AgentName, sr.Success)) = [("architect", true), ("implementer", true)]) ∧
    GoMap.get (sampleOrchestrator.ExecuteWorkflow designWorkflow).result.Context "last_agent" =
      some (Value.str "architect") ∧
    GoMap.get (sampleOrchestrator.ExecuteWorkflow designWorkflow).result.Context "last_output" =
      ((sampleOrchestrator.ExecuteWorkflow designWorkflow).result.Steps[0]?).map
        (fun sr => Value.str sr.Output) ∧
    GoMap.get (sampleOrchestrator.ExecuteWorkflow designWorkflow).result.Context "last_output" ≠
      ((sampleOrchestrator.ExecuteWorkflow designWorkflow).result.Steps[1]?).map
        (fun sr => Value.str sr.Output) := by
  decide

/-! ## Failure of a required step -/

/-- C3: when step `k` (counted from 0) is the first required step whose
execution fails, with error `e`, `ExecuteWorkflow` records no step after it and
returns `Success = false` with the error
`Required step <k+1> (<agent name>) failed: <e>`, which contains the decimal
index `k+1` and the agent name of the step. -/
theorem required_failure_halts (o : Orchestrator) (w : Workflow) (k : Nat)
    (step : WorkflowStep) (e : String)
    (hstep : w.Steps[k]? = some step) (hreq : step.Required = true)
    (hfail : (o.executeStep step (o.contextAt w k)).Success = false)
    (herr : (o.executeStep step (o.contextAt w k)).Error = e)
    (hfirst : ∀ j, j < k → o.requiredFailureAt w j = false) :
    (o.ExecuteWorkflow w).result.Success = false ∧
    (o.ExecuteWorkflow w).result.Error =
      "Required step " ++ toString (k + 1) ++ " (" ++ step.AgentName ++ ") failed: " ++ e ∧
    (o.ExecuteWorkflow w).result.Steps.length = k + 1 ∧
    (∀ i, k < i → (o.ExecuteWorkflow w).result.Steps[i]? = none) ∧
    (o.ExecuteWorkflow w).result.Steps[k]? = some (o.executeStep step (o.contextAt w k)) ∧
    Contains (o.ExecuteWorkflow w).result.Error (toString (k + 1)) = true ∧
    Contains (o.ExecuteWorkflow w).result.Error step.AgentName = true := by
  have hk : o.requiredFailureAt w k = true :=
    (requiredFailureAt_iff o w k).2 ⟨step, hstep, hreq, hfail⟩
  obtain ⟨step', hstep', hrun⟩ := ExecuteWorkflow_of_first_failure o w k hk hfirst
  have hss : step' = step := by
    rw [hstep] at hstep'
    exact (Option.some.inj hstep').symm
  subst hss
  have hlt := failsFrom_lt_length o _ _ k hk
  have hlen : (o.ExecuteWorkflow w).result.Steps.length = k + 1 := by
    rw [hrun]
    simp [resultsFrom_length]
    omega
  have herror : (o.ExecuteWorkflow w).result.Error =
      "Required step " ++ toString (k + 1) ++ " (" ++ step'.AgentName ++ ") failed: " ++ e := by
    rw [hrun, herr]
  refine ⟨by rw [hrun], herror, hlen, ?_, ?_, ?_, ?_⟩
  · intro i hi
    exact List.getElem?_eq_none (by omega)
  · rw [ExecuteWorkflow_steps_getElem? o w k (by omega)]
    simp [Orchestrator.stepResultAt, hstep]
  · rw [herror]
    have := data_infix_of_append "Required step " (toString (k + 1))
      (" (" ++ step'.AgentName ++ ") failed: " ++ e)
    simpa [String.append_assoc] using this
  · rw [herror]
    have := data_infix_of_append ("Required step " ++ toString (k + 1) ++ " (")
      step'.AgentName (") failed: " ++ e)
    simpa [String.append_assoc] using this

/-- Witness of C3: the second step of `haltingWorkflow` is required and names
an agent that cannot be resolved; the third step is never executed. -/
theorem required_failure_halts_witness :
    (sampleOrchestrator.ExecuteWorkflow haltingWorkflow).result.Success = false ∧
    (sampleOrchestrator.ExecuteWorkflow haltingWorkflow).result.Error =
      "Required step " ++ toString (1 + 1) ++ " (" ++ "ghost" ++ ") failed: " ++
        "Failed to load agent: agent 'ghost' not found in any location" ∧
    (sampleOrchestrator.ExecuteWorkflow haltingWorkflow).result.Steps.length = 1 + 1 :=
  have h := required_failure_halts sampleOrchestrator haltingWorkflow 1
    { AgentName := "ghost", Input := "Haunt", Required := true, Context := [] }
    "Failed to load agent: agent 'ghost' not found in any location"
    (by decide) (by decide) (by decide) (by decide) (by decide)
  ⟨h.1, h.2.1, h.2.2.1⟩

/-! ## Overall success -/

theorem required_error_ne_empty (t : String) : "Required step " ++ t ≠ "" := by
  intro h
  have hd := congrArg String.length h
  have hlen : "Required step ".length = 14 := by decide
  rw [String.length_append, hlen] at hd
  have h0 : "".length = 0 := by decide
  omega

/-- C4: the overall `Success` of the result is true exactly when no required
step fails, whatever the optional steps do; the aggregate `Error` is non-empty
exactly when `Success` is false; and a workflow all of whose steps are optional
reports `Success = true` with as many step results as steps, even when every
step fails. -/
theorem success_iff_no_required_failure (o : Orchestrator) (w : Workflow) :
    ((o.ExecuteWorkflow w).result.Success = true ↔
      ∀ k, k < w.Steps.length → o.requiredFailureAt w k = false) ∧
    ((o.ExecuteWorkflow w).result.Error ≠ "" ↔ (o.ExecuteWorkflow w).result.Success = false) ∧
    ((∀ step, step ∈ w.Steps → step.Required = false) →
      (o.ExecuteWorkflow w).result.Success = true ∧
      (o.ExecuteWorkflow w).result.Steps.length = w.Steps.length ∧
      (o.ExecuteWorkflow w).result.Error = "") := by
  have hall : (∀ step, step ∈ w.Steps → step.Required = false) →
      ∀ k, o.requiredFailureAt w k = false := by
    intro hopt k
    by_contra hk
    obtain ⟨step, hstep, hreq, _⟩ := (requiredFailureAt_iff o w k).1 (by simpa using hk)
    have hmem : step ∈ w.Steps := List.getElem?_mem hstep
    rw [hopt step hmem] at hreq
    exact Bool.noConfusion hreq
  rcases ExecuteWorkflow_cases o w with ⟨hno, hrun⟩ | ⟨k, step, _, hk, _, hrun⟩
  · refine ⟨?_, ?_, ?_⟩
    · rw [hrun]
      simp only [true_iff]
      intro k _
      exact hno k
    · rw [hrun]
      simp
    · intro _
      rw [hrun]
      simp [resultsFrom_length]
  · have hlt := failsFrom_lt_length o _ _ k hk
    refine ⟨?_, ?_, ?_⟩
    · rw [hrun]
      constructor
      · intro h
        exact Bool.noConfusion h
      · intro h
        rw [h k hlt] at hk
        exact Bool.noConfusion hk
    · rw [hrun]
      simp only [iff_true]
      have := required_error_ne_empty (toString (k + 1) ++ " (" ++ step.AgentName ++
        ") failed: " ++ (o.executeStep step (o.contextAt w k)).Error)
      simpa [String.append_assoc] using this
    · intro hopt
      rw [hall hopt k] at hk
      exact Bool.noConfusion hk

/-- Witness of C4: both steps of `optionalWorkflow` are optional and fail, and
the run still succeeds with two step results; `haltingWorkflow` has a required
failure and does not succeed. -/
theorem success_iff_no_required_failure_witness :
    ((sampleOrchestrator.ExecuteWorkflow optionalWorkflow).result.Steps.map
        (fun sr => sr.Success) = [false, false]) ∧
    ((sampleOrchestrator.ExecuteWorkflow optionalWorkflow).result.Success = true ∧
      (sampleOrchestrator.ExecuteWorkflow optionalWorkflow).result.Steps.length = 2 ∧
      (sampleOrchestrator.ExecuteWorkflow optionalWorkflow).result.Error = "") ∧
    (sampleOrchestrator.ExecuteWorkflow haltingWorkflow).result.Error ≠ "" :=
  ⟨by decide,
   (success_iff_no_required_failure sampleOrchestrator optionalWorkflow).2.2 (by decide),
   (success_iff_no_required_failure sampleOrchestrator haltingWorkflow).2.1.2 (by decide)⟩

/-! ## Failed steps leave the running context alone -/

/-- C5: when the execution of step `k` (counted from 0) at its step boundary
fails, the running context after the step is the running context before it;
when moreover the step is reached and is not required, its failed result is
recorded and the next step, if there is one, is executed, in that same context;
and when it is reached and required, the context of the result is that same
context. -/
theorem failed_step_keeps_context (o : Orchestrator) (w : Workflow) (k : Nat)
    (step : WorkflowStep) (hstep : w.Steps[k]? = some step)
    (hfail : (o.executeStep step (o.contextAt w k)).Success = false) :
    o.contextAt w (k + 1) = o.contextAt w k ∧
    (step.Required = false → (∀ j, j < k → o.requiredFailureAt w j = false) →
      (o.ExecuteWorkflow w).result.Steps[k]? = some (o.executeStep step (o.contextAt w k)) ∧
      ∀ next, w.Steps[k + 1]? = some next →
        (o.ExecuteWorkflow w).result.Steps[k + 1]? =
          some (o.executeStep next (o.contextAt w k))) ∧
    (step.Required = true → (∀ j, j < k → o.requiredFailureAt w j = false) →
      (o.ExecuteWorkflow w).result.Context = o.contextAt w k) := by
  have hctx : o.contextAt w (k + 1) = o.contextAt w k := by
    rw [contextAt_succ o w k step hstep]
    simp [Orchestrator.advance, hfail]
  refine ⟨hctx, ?_, ?_⟩
  swap
  · intro hreq hbefore
    obtain ⟨_, _, hrun⟩ := ExecuteWorkflow_of_first_failure o w k
      ((requiredFailureAt_iff o w k).2 ⟨step, hstep, hreq, hfail⟩) hbefore
    rw [hrun]
  intro hopt hbefore
  have hklt : k < w.Steps.length := by
    by_contra hge
    rw [List.getElem?_eq_none (by omega)] at hstep
    exact Option.noConfusion hstep
  constructor
  · rw [ExecuteWorkflow_steps_getElem? o w k (ExecuteWorkflow_reaches o w k hklt hbefore)]
    simp [Orchestrator.stepResultAt, hstep]
  · intro next hnext
    have hnlt : k + 1 < w.Steps.length := by
      by_contra hge
      rw [List.getElem?_eq_none (by omega)] at hnext
      exact Option.noConfusion hnext
    have hk : o.requiredFailureAt w k = false := by
      by_contra hk
      obtain ⟨step', hstep', hreq, _⟩ := (requiredFailureAt_iff o w k).1 (by simpa using hk)
      rw [hstep] at hstep'
      rw [← Option.some.inj hstep', hopt] at hreq
      exact Bool.noConfusion hreq
    have hbefore' : ∀ j, j < k + 1 → o.requiredFailureAt w j = false := by
      intro j hj
      rcases Nat.lt_succ_iff_lt_or_eq.1 hj with hlt | heq
      · exact hbefore j hlt
      · rw [heq]
        exact hk
    rw [ExecuteWorkflow_steps_getElem? o w (k + 1)
      (ExecuteWorkflow_reaches o w (k + 1) hnlt hbefore')]
    simp [Orchestrator.stepResultAt, hnext, hctx]

/-- Witness of C5: the first step of `optionalWorkflow` fails and is optional;
the context is unchanged and the second step is executed. -/
theorem failed_step_keeps_context_witness :
    sampleOrchestrator.contextAt optionalWorkflow (0 + 1) =
      sampleOrchestrator.contextAt optionalWorkflow 0 ∧
    (sampleOrchestrator.ExecuteWorkflow optionalWorkflow).result.Steps[0 + 1]? =
      some (sampleOrchestrator.executeStep
        { AgentName := "phantom", Input := "Glide", Required := false, Context := [] }
        (sampleOrchestrator.contextAt optionalWorkflow 0)) :=
  have h := failed_step_keeps_context sampleOrchestrator optionalWorkflow 0
    { AgentName := "ghost", Input := "Haunt", Required := false, Context := [] }
    (by decide) (by decide)
  ⟨h.1, (h.2.1 (by decide) (by decide)).2 _ (by decide)⟩

/-! ## Substitution -/

theorem replaceScan_of_not_contains (old new : List Char) :
    ∀ s : List Char, containsChars old s = false → replaceScan old new 0 s = s := by
  intro s
  induction s with
  | nil => intro _; rfl
  | cons c cs ih =>
    intro h
    simp only [containsChars, Bool.or_eq_false_iff] at h
    simp [replaceScan, h.1, ih h.2]

theorem ReplaceAll_of_not_contains (s old new : String) (hne : old.data ≠ [])
    (h : Contains s old = false) : ReplaceAll s old new = s := by
  unfold ReplaceAll
  rw [if_neg hne, replaceScan_of_not_contains _ _ _ h]

theorem placeholder_data_ne_nil (key : String) :
    ("\x7b\x7b" ++ key ++ "\x7d\x7d").data ≠ [] := by
  simp [String.data_append]

/-- C6, the code at a failing input: with the context
`a ↦ "{{b}}", b ↦ "X"` visited in this order, the template `{{a}}` becomes
`X`, whereas replacing the occurrence of `{{a}}` by the value of `a` and
leaving all other text as it is gives `{{b}}`; on the example of the claim
the code and the reference agree. -/
theorem substituteContext_rescans_values :
    sampleOrchestrator.substituteContext "\x7b\x7ba\x7d\x7d" nestedContext = "X" ∧
    substituteReference "\x7b\x7ba\x7d\x7d" nestedContext = "\x7b\x7bb\x7d\x7d" ∧
    sampleOrchestrator.substituteContext "\x7b\x7bgreeting\x7d\x7d \x7b\x7bname\x7d\x7d!"
      [("greeting", Value.str "Hello"), ("name", Value.str "World")] = "Hello World!" ∧
    substituteReference "\x7b\x7bgreeting\x7d\x7d \x7b\x7bname\x7d\x7d!"
      [("greeting", Value.str "Hello"), ("name", Value.str "World")] = "Hello World!" := by
  decide

/-- C7: when the placeholder of no key of the context occurs in the input,
`substituteContext` returns the input unchanged, whatever the order in which
the keys are visited. -/
theorem substituteContext_of_no_placeholder (o : Orchestrator) (input : String) (context : Ctx)
    (h : ∀ kv, kv ∈ context → Contains input (placeholderOf kv.1) = false) :
    o.substituteContext input context = input := by
  unfold Orchestrator.substituteContext
  induction context with
  | nil => rfl
  | cons kv rest ih =>
    have hkv : Contains input ("\x7b\x7b" ++ kv.1 ++ "\x7d\x7d") = false :=
      h kv (List.mem_cons_self kv rest)
    have hrest : ∀ kv', kv' ∈ rest → Contains input (placeholderOf kv'.1) = false :=
      fun kv' hmem => h kv' (List.mem_cons_of_mem kv hmem)
    rw [List.foldl_cons]
    have hstep : ∀ new : String,
        ReplaceAll input ("\x7b\x7b" ++ kv.1 ++ "\x7d\x7d") new = input :=
      fun new => ReplaceAll_of_not_contains input _ new (placeholder_data_ne_nil kv.1) hkv
    cases hv : kv.2 with
    | str strValue => simp only [hstep]; exact ih hrest
    | int n => simp only [hstep]; exact ih hrest
    | bool b => simp only [hstep]; exact ih hrest

/-- Witness of C7: `Hello {{name}}` stays as it is with the empty context and
with a context that has no key `name`. -/
theorem substituteContext_of_no_placeholder_witness :
    sampleOrchestrator.substituteContext "Hello \x7b\x7bname\x7d\x7d" [] =
      "Hello \x7b\x7bname\x7d\x7d" ∧
    sampleOrchestrator.substituteContext "Hello \x7b\x7bname\x7d\x7d"
      [("user", Value.str "Ann"), ("count", Value.int 3)] = "Hello \x7b\x7bname\x7d\x7d" :=
  ⟨substituteContext_of_no_placeholder sampleOrchestrator _ [] (by decide),
   substituteContext_of_no_placeholder sampleOrchestrator _
     [("user", Value.str "Ann"), ("count", Value.int 3)] (by decide)⟩

/-- C8, the code at a failing input: the same two entries `a ↦ "{{b}}"` and
`b ↦ "X"`, visited in the two possible orders, turn the template `{{a}}` into
`X` and into `{{b}}`. -/
theorem substituteContext_order_dependent :
    List.Perm nestedContext nestedContextSwapped ∧
    (nestedContext.map (fun kv => kv.1)).Nodup ∧
    sampleOrchestrator.substituteContext "\x7b\x7ba\x7d\x7d" nestedContext = "X" ∧
    sampleOrchestrator.substituteContext "\x7b\x7ba\x7d\x7d" nestedContextSwapped =
      "\x7b\x7bb\x7d\x7d" ∧
    sampleOrchestrator.substituteContext "\x7b\x7ba\x7d\x7d" nestedContext ≠
      sampleOrchestrator.substituteContext "\x7b\x7ba\x7d\x7d" nestedContextSwapped := by
  refine ⟨List.Perm.swap _ _ _, by decide, by decide, by decide, by decide⟩

/-! ## The context of a step -/

/-- C9, the code at a failing input: the request built for a step has the
running workflow context as its context, whatever the step's own map holds; for
`overrideStep`, whose map sets `env`, the request context has no key `env`, the
placeholder of `env` is not substituted and the context the agent returns has
no key `env`, whereas the workflow context overridden by the step's map has
`env ↦ "prod"`. -/
theorem stepRequest_ignores_step_context :
    (∀ (o : Orchestrator) (step : WorkflowStep) (c : Ctx), (o.stepRequest step c).Context = c) ∧
    GoMap.get (sampleOrchestrator.stepRequest overrideStep []).Context "env" = none ∧
    (sampleOrchestrator.stepRequest overrideStep []).Input = "Test on \x7b\x7benv\x7d\x7d" ∧
    GoMap.get (sampleOrchestrator.executeStep overrideStep []).Context "env" = none ∧
    GoMap.get (overriddenContext [] overrideStep) "env" = some (Value.str "prod") := by
  refine ⟨fun _ _ _ => rfl, by decide, by decide, by decide, by decide⟩

/-! ## Handoff warnings -/

theorem warningsFrom_eq (o : Orchestrator) (steps : List WorkflowStep) :
    ∀ (rest : List WorkflowStep) (i : Nat) (c : Ctx),
      o.warningsFrom steps i c rest = warningsOfResults steps i (o.resultsFrom c rest) := by
  intro rest
  induction rest with
  | nil => intro i c; rfl
  | cons step rest ih =>
    intro i c
    simp [Orchestrator.warningsFrom, Orchestrator.resultsFrom, warningsOfResults, ih]

theorem warningsOfResults_append (steps : List WorkflowStep) :
    ∀ (a b : List StepResult) (i : Nat),
      warningsOfResults steps i (a ++ b) =
        warningsOfResults steps i a ++ warningsOfResults steps (i + a.length) b := by
  intro a
  induction a with
  | nil => intro b i; simp [warningsOfResults]
  | cons sr a ih =>
    intro b i
    simp [warningsOfResults, ih, Nat.add_assoc, Nat.add_comm 1 a.length]

theorem resultsFrom_append (o : Orchestrator) :
    ∀ (xs ys : List WorkflowStep) (c : Ctx),
      o.resultsFrom c (xs ++ ys) = o.resultsFrom c xs ++ o.resultsFrom (o.contextAfter c xs) ys := by
  intro xs
  induction xs with
  | nil => intro ys c; simp [Orchestrator.resultsFrom, Orchestrator.contextAfter]
  | cons x xs ih =>
    intro ys c
    simp [Orchestrator.resultsFrom, Orchestrator.contextAfter, ih]

theorem expectedWarnings_of_failure (steps : List WorkflowStep) (i : Nat) (sr : StepResult)
    (h : sr.Success = false) : expectedWarnings steps i sr = [] := by
  unfold expectedWarnings
  split
  · simp [h]
  · rfl

/-- What a primary agent named `architect` returns to the orchestrator. -/
theorem executeStep_architect (o : Orchestrator) (step : WorkflowStep) (c : Ctx)
    (agent : AgentResource) (hname : step.AgentName = "architect")
    (hload : o.engine.loadAgent "architect" = Except.ok agent)
    (hagent : agent.Name = "architect") (hmode : agent.Mode = "primary") :
    (o.executeStep step c).Success = true ∧
    ∃ handoff, (o.executeStep step c).Handoff = some handoff ∧
      handoff.AgentName = "implementer" := by
  simp [Orchestrator.executeStep, Orchestrator.stepRequest, Engine.Execute, hname, hload,
    hmode, Engine.executePrimaryAgent, hagent]

theorem expectedWarnings_architect (o : Orchestrator) (steps : List WorkflowStep) (i : Nat)
    (step next : WorkflowStep) (c : Ctx) (agent : AgentResource)
    (hnext : steps[i + 1]? = some next) (hname : step.AgentName = "architect")
    (hload : o.engine.loadAgent "architect" = Except.ok agent)
    (hagent : agent.Name = "architect") (hmode : agent.Mode = "primary") :
    expectedWarnings steps i (o.executeStep step c) =
      if next.AgentName = "implementer" then []
      else [mismatchWarning "implementer" next.AgentName] := by
  obtain ⟨hsucc, handoff, hh, htarget⟩ :=
    executeStep_architect o step c agent hname hload hagent hmode
  unfold expectedWarnings
  rw [hh, hnext]
  simp only [hsucc, htarget, true_and]
  by_cases hn : next.AgentName = "implementer"
  · simp [hn]
  · have hn' : ¬ "implementer" = next.AgentName := fun h => hn h.symm
    simp [hn, hn']

theorem expectedWarnings_last (steps : List WorkflowStep) (i : Nat) (sr : StepResult)
    (h : steps[i + 1]? = none) : expectedWarnings steps i sr = [] := by
  unfold expectedWarnings
  rw [h]
  cases sr.Handoff <;> rfl

/-- C10, the claim as stated fails: on `plainArchitectHost` the name
`architect` resolves to the user-scope file, which has no metadata block and is
therefore a subagent; the `architect` step of `mismatchWorkflow` succeeds
without a handoff suggestion, and the run of `architect` followed by `tester`
prints no warning, not exactly one. -/
theorem subagent_architect_prints_no_warning :
    mismatchWorkflow.Steps.map (fun step => step.AgentName) = ["architect", "tester"] ∧
    (loadInstalledAgent plainArchitectHost "architect" Scope.UserScope).map
        (fun agent => agent.Mode) = some "subagent" ∧
    ((NewOrchestrator plainArchitectHost).ExecuteWorkflow mismatchWorkflow).result.Steps.map
        (fun sr => (sr.Success, sr.Handoff)) = [(true, none), (true, none)] ∧
    ((NewOrchestrator plainArchitectHost).ExecuteWorkflow mismatchWorkflow).printed = [] := by
  decide

/-- C10, amended: the lines `ExecuteWorkflow` prints are, step by step over the
recorded step results, one handoff-mismatch warning for step `i` exactly when
the step succeeded with a handoff suggestion, a step `i+1` exists and the
suggested agent is not the agent of step `i+1`; when the name `architect`
resolves to a definition named `architect` of mode `primary`, an `architect`
step gives no warning when the next step's agent is `implementer` and one
warning otherwise, so that a workflow of an `architect` step and one more step
prints nothing when the second agent is `implementer` and exactly one warning
when it is any other agent. -/
theorem handoff_warnings (o : Orchestrator) (w : Workflow) :
    (o.ExecuteWorkflow w).printed =
      warningsOfResults w.Steps 0 (o.ExecuteWorkflow w).result.Steps ∧
    (∀ (i : Nat) (step next : WorkflowStep) (c : Ctx) (agent : AgentResource),
      w.Steps[i + 1]? = some next → step.AgentName = "architect" →
      o.engine.loadAgent "architect" = Except.ok agent →
      agent.Name = "architect" → agent.Mode = "primary" →
      expectedWarnings w.Steps i (o.executeStep step c) =
        if next.AgentName = "implementer" then []
        else [mismatchWarning "implementer" next.AgentName]) ∧
    (∀ (first next : WorkflowStep) (agent : AgentResource),
      w.Steps = [first, next] → first.AgentName = "architect" →
      o.engine.loadAgent "architect" = Except.ok agent →
      agent.Name = "architect" → agent.Mode = "primary" →
      (o.ExecuteWorkflow w).printed =
        if next.AgentName = "implementer" then []
        else [mismatchWarning "implementer" next.AgentName]) := by
  have hprinted : (o.ExecuteWorkflow w).printed =
      warningsOfResults w.Steps 0 (o.ExecuteWorkflow w).result.Steps := by
    rcases ExecuteWorkflow_cases o w with ⟨_, hrun⟩ | ⟨k, step, hstep, hk, _, hrun⟩
    · rw [hrun]
      exact warningsFrom_eq o w.Steps w.Steps 0 _
    · obtain ⟨step', hstep', _, hfail⟩ := (requiredFailureAt_iff o w k).1 hk
      have hss : step' = step := by
        rw [hstep] at hstep'
        exact (Option.some.inj hstep').symm
      subst hss
      have hlt := failsFrom_lt_length o _ _ k hk
      have htake : w.Steps.take (k + 1) = w.Steps.take k ++ [step'] := by
        rw [List.take_succ, hstep]
        rfl
      rw [hrun]
      simp only [htake, resultsFrom_append, warningsOfResults_append, warningsFrom_eq,
        Orchestrator.resultsFrom, warningsOfResults, List.append_nil]
      rw [expectedWarnings_of_failure _ _ _ (by simpa [Orchestrator.contextAt] using hfail)]
      simp
  refine ⟨hprinted, ?_, ?_⟩
  · intro i step next c agent hnext hname hload hagent hmode
    exact expectedWarnings_architect o w.Steps i step next c agent hnext hname hload hagent hmode
  · intro first next agent hsteps hname hload hagent hmode
    have hfirst : ∀ c, (o.executeStep first c).Success = true := fun c =>
      (executeStep_architect o first c agent hname hload hagent hmode).1
    have h0 : o.requiredFailureAt w 0 = false := by
      by_contra hk
      obtain ⟨step, hstep, _, hfail⟩ := (requiredFailureAt_iff o w 0).1 (by simpa using hk)
      have : step = first := by simpa [hsteps] using hstep.symm
      rw [this, hfirst] at hfail
      exact Bool.noConfusion hfail
    have hlen : (o.ExecuteWorkflow w).result.Steps.length = 2 := by
      rcases ExecuteWorkflow_cases o w with ⟨_, hrun⟩ | ⟨k, step, _, hk, _, hrun⟩
      · rw [hrun]
        simp [resultsFrom_length, hsteps]
      · have hlt := failsFrom_lt_length o _ _ k hk
        have hk1 : k = 1 := by
          rw [hsteps] at hlt
          simp at hlt
          rcases Nat.lt_succ_iff_lt_or_eq.1 hlt with h | h
          · have : k = 0 := by omega
            rw [this, h0] at hk
            exact Bool.noConfusion hk
          · exact h
        rw [hrun, hk1]
        simp [resultsFrom_length, hsteps]
    have hr0 := ExecuteWorkflow_steps_getElem? o w 0 (by omega)
    have hr1 := ExecuteWorkflow_steps_getElem? o w 1 (by omega)
    rw [hprinted]
    match hsr : (o.ExecuteWorkflow w).result.Steps, hlen with
    | [sr0, sr1], _ =>
      rw [hsr] at hr0 hr1
      simp only [Orchestrator.stepResultAt, hsteps, List.getElem?_cons_zero,
        List.getElem?_cons_succ, Option.map_some', Option.some.injEq] at hr0 hr1
      simp only [warningsOfResults, List.append_nil]
      rw [expectedWarnings_last _ 1 sr1 (by simp [hsteps]), List.append_nil, hr0]
      exact expectedWarnings_architect o w.Steps 0 first next _ agent (by simp [hsteps]) hname
        hload hagent hmode

/-- Witness of C10 as amended: `designWorkflow` runs `architect` then `implementer` and
prints nothing; a workflow of `architect` then `tester` prints one warning. -/
theorem handoff_warnings_witness :
    (sampleOrchestrator.ExecuteWorkflow designWorkflow).printed = [] ∧
    (sampleOrchestrator.ExecuteWorkflow mismatchWorkflow).printed =
      ["Warning: Handoff suggested implementer but next step is tester\n"] :=
  ⟨(handoff_warnings sampleOrchestrator designWorkflow).2.2 _ _
      { Name := "architect", Description := "Agent for software development tasks"
        Content := "", Mode := "primary", Temperature := mkRat 2 10
        Tools := [("write", false), ("edit", false), ("bash", false), ("read", true),
          ("webfetch", true)] }
      rfl rfl rfl rfl rfl,
   (handoff_warnings sampleOrchestrator mismatchWorkflow).2.2 _ _
      { Name := "architect", Description := "Agent for software development tasks"
        Content := "", Mode := "primary", Temperature := mkRat 2 10
        Tools := [("write", false), ("edit", false), ("bash", false), ("read", true),
          ("webfetch", true)] }
      rfl rfl rfl rfl rfl⟩

/-! ## Lines of a text -/

theorem splitChars_ne_nil (sep : Char) : ∀ l : List Char, splitChars sep l ≠ [] := by
  intro l
  cases l with
  | nil => simp [splitChars]
  | cons c cs =>
    by_cases h : c = sep
    · simp [splitChars, h]
    · cases hs : splitChars sep cs <;> simp [splitChars, h, hs]

theorem splitChars_append_sep (sep : Char) (ys : List Char) :
    ∀ xs : List Char,
      splitChars sep (xs ++ sep :: ys) = splitChars sep xs ++ splitChars sep ys := by
  intro xs
  induction xs with
  | nil => simp [splitChars]
  | cons c xs ih =>
    by_cases h : c = sep
    · simp [splitChars, h, ih]
    · cases hs : splitChars sep xs with
      | nil => exact absurd hs (splitChars_ne_nil sep xs)
      | cons piece pieces =>
        simp [splitChars, h, ih, hs]

theorem splitChars_no_sep (sep : Char) :
    ∀ (l piece : List Char), piece ∈ splitChars sep l → sep ∉ piece := by
  intro l
  induction l with
  | nil =>
    intro piece hp
    simp [splitChars] at hp
    simp [hp]
  | cons c cs ih =>
    intro piece hp
    by_cases h : c = sep
    · simp only [splitChars, h, if_true, List.mem_cons] at hp
      rcases hp with hp | hp
      · simp [hp]
      · exact ih piece hp
    · cases hs : splitChars sep cs with
      | nil => exact absurd hs (splitChars_ne_nil sep cs)
      | cons first pieces =>
        simp only [splitChars, h, if_false, hs, List.mem_cons] at hp
        have hne : ¬ sep = c := fun h' => h h'.symm
        rcases hp with hp | hp
        · rw [hp]
          have := ih first (by simp [hs])
          simp [hne, this]
        · exact ih piece (by simp [hs, hp])

theorem splitChars_of_no_sep (sep : Char) :
    ∀ l : List Char, sep ∉ l → splitChars sep l = [l] := by
  intro l
  induction l with
  | nil => intro _; rfl
  | cons c cs ih =>
    intro h
    simp only [List.mem_cons, not_or] at h
    have hne : ¬ c = sep := fun h' => h.1 h'.symm
    simp [splitChars, hne, ih h.2]

theorem Split_append_newline (a b : String) :
    Split (a ++ "\n" ++ b) '\n' = Split a '\n' ++ Split b '\n' := by
  have hd : (a ++ "\n" ++ b).data = a.data ++ '\n' :: b.data := by
    simp [String.data_append]
  simp [Split, hd, splitChars_append_sep]

theorem Split_of_no_newline (a : String) (h : '\n' ∉ a.data) : Split a '\n' = [a] := by
  simp [Split, splitChars_of_no_sep _ _ h]

theorem Split_no_newline (s line : String) (h : line ∈ Split s '\n') : '\n' ∉ line.data := by
  simp only [Split, List.mem_map] at h
  obtain ⟨piece, hp, rfl⟩ := h
  exact splitChars_no_sep '\n' s.data piece hp

theorem Join_map_mk_splitChars :
    ∀ l : List Char, Join ((splitChars '\n' l).map String.mk) "\n" = String.mk l := by
  intro l
  induction l with
  | nil => rfl
  | cons c cs ih =>
    cases hs : splitChars '\n' cs with
    | nil => exact absurd hs (splitChars_ne_nil '\n' cs)
    | cons piece pieces =>
      rw [hs] at ih
      by_cases h : c = '\n'
      · subst h
        simp only [splitChars, if_true, hs, List.map_cons, Join]
        rw [List.map_cons] at ih
        rw [ih]
        apply String.ext
        simp [String.data_append]
      · simp only [splitChars, h, if_false, hs, List.map_cons]
        cases pieces with
        | nil =>
          simp only [List.map_nil, Join] at ih ⊢
          have hp : piece = cs := by
            have := congrArg String.data ih
            simpa using this
          rw [hp]
        | cons q qs =>
          simp only [List.map_cons, Join] at ih ⊢
          apply String.ext
          have := congrArg String.data ih
          simp only [String.data_append] at this ⊢
          simp [this]

/-- Joining the lines of a text gives the text back. -/
theorem Join_Split (s : String) : Join (Split s '\n') "\n" = s := by
  unfold Split
  rw [Join_map_mk_splitChars]

/-- Splitting the join of lines that hold no newline gives the lines back. -/
theorem Split_Join :
    ∀ ms : List String, ms ≠ [] → (∀ l, l ∈ ms → '\n' ∉ l.data) →
      Split (Join ms "\n") '\n' = ms := by
  intro ms
  induction ms with
  | nil => intro h; exact absurd rfl h
  | cons a rest ih =>
    intro _ hno
    cases rest with
    | nil =>
      simp only [Join]
      exact Split_of_no_newline a (hno a (List.mem_cons_self a []))
    | cons b rest =>
      simp only [Join]
      rw [Split_append_newline, Split_of_no_newline a (hno a (List.mem_cons_self a _)),
        ih (List.cons_ne_nil b rest) (fun l hl => hno l (List.mem_cons_of_mem a hl))]
      rfl

/-! ## The parser of installed definitions -/

theorem frontmatterBounds_skip (rest : List String) (start : Option Nat) :
    ∀ (pre : List String) (i : Nat), "---" ∉ pre →
      frontmatterBounds (pre ++ rest) i start = frontmatterBounds rest (i + pre.length) start := by
  intro pre
  induction pre with
  | nil => intro i _; simp
  | cons line pre ih =>
    intro i h
    simp only [List.mem_cons, not_or] at h
    have hne : ¬ line = "---" := fun h' => h.1 h'.symm
    have hcons : frontmatterBounds ((line :: pre) ++ rest) i start =
        frontmatterBounds (pre ++ rest) (i + 1) start := by
      simp [frontmatterBounds, hne]
    rw [hcons, ih (i + 1) h.2, List.length_cons]
    congr 1
    omega

/-- The two `---` lines the parser finds: the first one of the text and the
next one after it. -/
theorem frontmatterBounds_found (pre ms bs : List String) (hpre : "---" ∉ pre)
    (hms : "---" ∉ ms) :
    frontmatterBounds (pre ++ "---" :: (ms ++ "---" :: bs)) 0 none =
      (some pre.length, some (pre.length + 1 + ms.length)) := by
  rw [frontmatterBounds_skip _ _ pre 0 hpre]
  simp only [frontmatterBounds, if_true, Nat.zero_add]
  rw [frontmatterBounds_skip _ _ ms (pre.length + 1) hms]
  simp [frontmatterBounds]

/-- What `parseInstalledAgent` returns for a text with two `---` lines. -/
theorem parseInstalledAgent_of_bounds (scanFloat : String → Rat) (name content : String)
    (pre ms bs : List String)
    (hsplit : Split content '\n' = pre ++ "---" :: (ms ++ "---" :: bs))
    (hpre : "---" ∉ pre) (hms : "---" ∉ ms) :
    parseInstalledAgent scanFloat name content =
      { parseFrontmatter scanFloat (Join ms "\n")
          { Name := name, Description := "", Content := "", Mode := "", Temperature := 0,
            Tools := [] } with
        Content := Join bs "\n" } := by
  unfold parseInstalledAgent
  simp only [hsplit, frontmatterBounds_found pre ms bs hpre hms]
  have hdrop1 : (pre ++ "---" :: (ms ++ "---" :: bs)).drop (pre.length + 1) =
      ms ++ "---" :: bs := by
    rw [show pre ++ "---" :: (ms ++ "---" :: bs) = (pre ++ ["---"]) ++ (ms ++ "---" :: bs) by simp]
    exact List.drop_left' (by simp)
  have hdrop2 : (pre ++ "---" :: (ms ++ "---" :: bs)).drop (pre.length + 1 + ms.length + 1) =
      bs := by
    rw [show pre ++ "---" :: (ms ++ "---" :: bs) = (pre ++ ["---"] ++ ms ++ ["---"]) ++ bs by simp]
    exact List.drop_left' (by simp; omega)
  have htake : (ms ++ "---" :: bs).take (pre.length + 1 + ms.length - (pre.length + 1)) = ms := by
    rw [show pre.length + 1 + ms.length - (pre.length + 1) = ms.length by omega]
    exact List.take_left' rfl
  rw [hdrop1, hdrop2, htake]

theorem parseFrontmatterLine_name (scanFloat : String → Rat) (agent : AgentResource)
    (line : String) : (parseFrontmatterLine scanFloat agent line).Name = agent.Name := by
  unfold parseFrontmatterLine
  simp only
  split_ifs <;> rfl

theorem parseFrontmatterLine_mode (scanFloat : String → Rat) (agent : AgentResource)
    (line : String) (h : HasPrefix (TrimSpace line) "mode:" = false) :
    (parseFrontmatterLine scanFloat agent line).Mode = agent.Mode := by
  unfold parseFrontmatterLine
  simp only [h]
  split_ifs <;> first | rfl | contradiction

theorem foldl_parseFrontmatterLine_name (scanFloat : String → Rat) :
    ∀ (lines : List String) (agent : AgentResource),
      (lines.foldl (parseFrontmatterLine scanFloat) agent).Name = agent.Name := by
  intro lines
  induction lines with
  | nil => intro agent; rfl
  | cons line lines ih =>
    intro agent
    rw [List.foldl_cons, ih, parseFrontmatterLine_name]

theorem foldl_parseFrontmatterLine_mode (scanFloat : String → Rat) :
    ∀ (lines : List String) (agent : AgentResource),
      (∀ l, l ∈ lines → HasPrefix (TrimSpace l) "mode:" = false) →
      (lines.foldl (parseFrontmatterLine scanFloat) agent).Mode = agent.Mode := by
  intro lines
  induction lines with
  | nil => intro agent _; rfl
  | cons line lines ih =>
    intro agent h
    rw [List.foldl_cons, ih _ (fun l hl => h l (List.mem_cons_of_mem line hl)),
      parseFrontmatterLine_mode _ _ _ (h line (List.mem_cons_self line lines))]

/-- `parseInstalledAgent` gives the definition the name it is asked for. -/
theorem parseInstalledAgent_name (scanFloat : String → Rat) (name content : String) :
    (parseInstalledAgent scanFloat name content).Name = name := by
  unfold parseInstalledAgent
  simp only
  split
  · simp [parseFrontmatter, foldl_parseFrontmatterLine_name]
  · rfl

/-! ## Resolution of a name -/

theorem GetAgent_name (readDir : Except String (List DirEntry)) (name : String)
    (agent : AgentResource) (h : GetAgent readDir name = Except.ok agent) : agent.Name = name := by
  unfold GetAgent at h
  cases hav : GetAvailableAgents readDir with
  | error err => simp [hav] at h
  | ok agents =>
    simp only [hav] at h
    cases hf : agents.find? (fun a => decide (a.Name = name)) with
    | none => simp [hf] at h
    | some found =>
      simp only [hf, Except.ok.injEq] at h
      have := List.find?_some hf
      rw [← h]
      simpa using this

/-- `loadAgent` of an engine made by `NewEngine`, source by source. -/
theorem NewEngine_loadAgent (h : Host) (name : String) :
    (NewEngine h).loadAgent name =
      match h.readAgentFile Scope.UserScope name with
      | some text => Except.ok (parseInstalledAgent h.scanFloat name text)
      | none =>
        match h.readAgentFile Scope.ProjectScope name with
        | some text => Except.ok (parseInstalledAgent h.scanFloat name text)
        | none =>
          match GetAgent h.readEmbeddedDir name with
          | Except.ok agent => Except.ok agent
          | Except.error _ => Except.error ("agent '" ++ name ++ "' not found in any location") := by
  cases hu : h.readAgentFile Scope.UserScope name with
  | some text => simp [Engine.loadAgent, NewEngine, loadInstalledAgent, hu]
  | none =>
    cases hp : h.readAgentFile Scope.ProjectScope name with
    | some text => simp [Engine.loadAgent, NewEngine, loadInstalledAgent, hu, hp]
    | none =>
      cases hg : GetAgent h.readEmbeddedDir name with
      | ok agent => simp [Engine.loadAgent, NewEngine, loadInstalledAgent, hu, hp, hg]
      | error err => simp [Engine.loadAgent, NewEngine, loadInstalledAgent, hu, hp, hg]

theorem NewEngine_loadAgent_name (h : Host) (name : String) (agent : AgentResource)
    (hload : (NewEngine h).loadAgent name = Except.ok agent) : agent.Name = name := by
  rw [NewEngine_loadAgent] at hload
  cases hu : h.readAgentFile Scope.UserScope name with
  | some text =>
    simp only [hu, Except.ok.injEq] at hload
    rw [← hload]
    exact parseInstalledAgent_name _ _ _
  | none =>
    cases hp : h.readAgentFile Scope.ProjectScope name with
    | some text =>
      simp only [hu, hp, Except.ok.injEq] at hload
      rw [← hload]
      exact parseInstalledAgent_name _ _ _
    | none =>
      cases hg : GetAgent h.readEmbeddedDir name with
      | ok found =>
        simp only [hu, hp, hg, Except.ok.injEq] at hload
        rw [← hload]
        exact GetAgent_name _ _ _ hg
      | error err => simp [hu, hp, hg] at hload

theorem HasPrefix_append (p r : String) : HasPrefix (p ++ r) p = true := by
  unfold HasPrefix
  rw [List.isPrefixOf_iff_prefix, String.data_append]
  exact List.prefix_append _ _

theorem executed_ne_empty (t : String) : "Executed " ++ t ≠ "" := by
  intro h
  have hd := congrArg String.length h
  have hlen : "Executed ".length = 9 := by decide
  rw [String.length_append, hlen] at hd
  have h0 : "".length = 0 := by decide
  omega

theorem append_ne_empty (p t : String) (hp : p ≠ "") : p ++ t ≠ "" := by
  intro h
  apply hp
  have hd := congrArg String.data h
  rw [String.data_append] at hd
  apply String.ext
  exact (List.append_eq_nil.1 hd).1

theorem executeStep_fields (o : Orchestrator) (step : WorkflowStep) (c : Ctx) :
    (o.executeStep step c).AgentName = step.AgentName ∧
    (o.executeStep step c).Input = o.substituteContext step.Input c := by
  cases hx : o.engine.Execute (o.stepRequest step c) <;>
    simp only [Orchestrator.executeStep, hx] <;> simp [Orchestrator.stepRequest]

/-- `Engine.Execute` always returns a response, whose `Error` is empty exactly
when `Success` is true. -/
theorem Execute_ok (e : Engine) (req : ExecuteRequest) :
    ∃ resp, e.Execute req = Except.ok resp ∧ (resp.Success = false ↔ resp.Error ≠ "") := by
  unfold Engine.Execute
  cases e.loadAgent req.AgentName with
  | error err =>
    refine ⟨_, rfl, ?_⟩
    simp only [true_iff]
    exact append_ne_empty _ _ (by decide)
  | ok agent =>
    by_cases hp : agent.Mode = "primary"
    · refine ⟨_, by simp only [hp, if_true]; rfl, ?_⟩
      simp
    · by_cases hs : agent.Mode = "subagent"
      · refine ⟨_, by simp only [hs, if_true]; rfl, ?_⟩
        simp
      · refine ⟨{ Output := "", Success := false, Error := "Unknown agent mode: " ++ agent.Mode
                  Context := [], Handoff := none }, by simp only [hp, hs, if_false], ?_⟩
        simp only [true_iff]
        exact append_ne_empty _ _ (by decide)

/-! ## Step results follow the declared steps -/

/-- C11: the step results are a prefix of the declared steps, in declared
order: there are at most as many results as steps, the agent names of the
results are the agent names of the first steps, and the result of index `i` is
the result of executing step `i` itself, with the agent name of the step and
with the step's input template after substitution in the running context;
handoff suggestions play no part in what is executed. -/
theorem step_results_follow_declared_steps (o : Orchestrator) (w : Workflow) :
    (o.ExecuteWorkflow w).result.Steps.length ≤ w.Steps.length ∧
    (o.ExecuteWorkflow w).result.Steps.map (fun sr => sr.AgentName) =
      (w.Steps.take (o.ExecuteWorkflow w).result.Steps.length).map
        (fun step => step.AgentName) ∧
    ∀ i, i < (o.ExecuteWorkflow w).result.Steps.length →
      ∃ step sr, w.Steps[i]? = some step ∧
        (o.ExecuteWorkflow w).result.Steps[i]? = some sr ∧
        sr = o.executeStep step (o.contextAt w i) ∧
        sr.AgentName = step.AgentName ∧
        sr.Input = o.substituteContext step.Input (o.contextAt w i) ∧
        (o.stepRequest step (o.contextAt w i)).AgentName = step.AgentName := by
  have hlen : (o.ExecuteWorkflow w).result.Steps.length ≤ w.Steps.length := by
    rcases ExecuteWorkflow_cases o w with ⟨_, hrun⟩ | ⟨k, step, _, _, _, hrun⟩
    · rw [hrun]
      simp [resultsFrom_length]
    · rw [hrun]
      simp only [resultsFrom_length, List.length_take]
      exact Nat.min_le_right _ _
  have hidx : ∀ i, i < (o.ExecuteWorkflow w).result.Steps.length →
      ∃ step, w.Steps[i]? = some step ∧
        (o.ExecuteWorkflow w).result.Steps[i]? = some (o.executeStep step (o.contextAt w i)) := by
    intro i hi
    have hget := ExecuteWorkflow_steps_getElem? o w i hi
    have hstep : w.Steps[i]? = some w.Steps[i] := List.getElem?_eq_getElem (by omega)
    refine ⟨w.Steps[i], hstep, ?_⟩
    rw [hget]
    simp [Orchestrator.stepResultAt, hstep]
  refine ⟨hlen, ?_, ?_⟩
  · apply List.ext_getElem?
    intro i
    by_cases hi : i < (o.ExecuteWorkflow w).result.Steps.length
    · obtain ⟨step, hstep, hres⟩ := hidx i hi
      simp [List.getElem?_map, hres, List.getElem?_take_of_lt hi, hstep,
        (executeStep_fields o step (o.contextAt w i)).1]
    · have h1 : (o.ExecuteWorkflow w).result.Steps[i]? = none :=
        List.getElem?_eq_none (by omega)
      have h2 : (w.Steps.take (o.ExecuteWorkflow w).result.Steps.length)[i]? = none :=
        List.getElem?_eq_none (by simp only [List.length_take]; omega)
      rw [List.getElem?_map, List.getElem?_map, h1, h2]
      rfl
  · intro i hi
    obtain ⟨step, hstep, hres⟩ := hidx i hi
    exact ⟨step, _, hstep, hres, rfl, (executeStep_fields o step _).1,
      (executeStep_fields o step _).2, rfl⟩

/-- Witness of C11: in `mismatchWorkflow` the `architect` step suggests
`implementer`, and the second result is that of the declared `tester` step. -/
theorem step_results_follow_declared_steps_witness :
    (sampleOrchestrator.ExecuteWorkflow mismatchWorkflow).result.Steps.map
        (fun sr => sr.AgentName) = ["architect", "tester"] ∧
    ∃ step sr, mismatchWorkflow.Steps[1]? = some step ∧
      (sampleOrchestrator.ExecuteWorkflow mismatchWorkflow).result.Steps[1]? = some sr ∧
      sr = sampleOrchestrator.executeStep step (sampleOrchestrator.contextAt mismatchWorkflow 1) ∧
      sr.AgentName = step.AgentName ∧
      sr.Input = sampleOrchestrator.substituteContext step.Input
        (sampleOrchestrator.contextAt mismatchWorkflow 1) ∧
      (sampleOrchestrator.stepRequest step
        (sampleOrchestrator.contextAt mismatchWorkflow 1)).AgentName = step.AgentName :=
  ⟨by decide,
   (step_results_follow_declared_steps sampleOrchestrator mismatchWorkflow).2.2 1 (by decide)⟩

/-! ## Failures are data -/

/-- C12: `Engine.Execute` returns a response and a nil error for every request,
and `ExecuteWorkflow` returns a result and a nil error for every workflow; a
failure shows only in the returned value, whose `Error` is non-empty exactly
when its `Success` is false, for a response, for a step result and for a
workflow result. -/
theorem failures_are_returned_as_data :
    (∀ (e : Engine) (req : ExecuteRequest),
      ∃ resp, e.Execute req = Except.ok resp ∧ (resp.Success = false ↔ resp.Error ≠ "")) ∧
    (∀ (o : Orchestrator) (step : WorkflowStep) (c : Ctx),
      (o.executeStep step c).Success = false ↔ (o.executeStep step c).Error ≠ "") ∧
    (∀ (o : Orchestrator) (w : Workflow),
      (o.ExecuteWorkflow w).err = none ∧
      ((o.ExecuteWorkflow w).result.Success = false ↔
        (o.ExecuteWorkflow w).result.Error ≠ "")) := by
  refine ⟨Execute_ok, ?_, ?_⟩
  · intro o step c
    obtain ⟨resp, hresp, hiff⟩ := Execute_ok o.engine (o.stepRequest step c)
    simp only [Orchestrator.executeStep, hresp]
    exact hiff
  · intro o w
    rcases ExecuteWorkflow_cases o w with ⟨_, hrun⟩ | ⟨k, step, _, _, _, hrun⟩
    · rw [hrun]
      simp
    · rw [hrun]
      refine ⟨rfl, ?_⟩
      simp only [true_iff]
      have := required_error_ne_empty (toString (k + 1) ++ " (" ++ step.AgentName ++
        ") failed: " ++ (o.executeStep step (o.contextAt w k)).Error)
      simpa [String.append_assoc] using this

/-! ## Unresolvable names and unknown modes -/

/-- C13: for a name found in neither scope and not among the embedded
definitions, `loadAgent` fails and `Engine.Execute` returns `Success = false`,
an empty `Output`, no handoff and the error
`Failed to load agent: agent '<name>' not found in any location`. -/
theorem execute_unresolvable_agent (e : Engine) (req : ExecuteRequest)
    (huser : e.installed Scope.UserScope req.AgentName = none)
    (hproject : e.installed Scope.ProjectScope req.AgentName = none)
    (hbuiltin : e.embedded req.AgentName = none) :
    e.loadAgent req.AgentName =
      Except.error ("agent '" ++ req.AgentName ++ "' not found in any location") ∧
    e.Execute req =
      Except.ok
        { Output := ""
          Success := false
          Error := "Failed to load agent: agent '" ++ req.AgentName ++
            "' not found in any location"
          Context := []
          Handoff := none } := by
  have hload : e.loadAgent req.AgentName =
      Except.error ("agent '" ++ req.AgentName ++ "' not found in any location") := by
    simp [Engine.loadAgent, huser, hproject, hbuiltin]
  refine ⟨hload, ?_⟩
  have hlit : "Failed to load agent: " ++ "agent '" = "Failed to load agent: agent '" := by
    decide
  simp only [Engine.Execute, hload]
  rw [← hlit, String.append_assoc, String.append_assoc, String.append_assoc]

/-- Witness of C13: the name `nonexistent` on `sampleHost`. -/
theorem execute_unresolvable_agent_witness :
    (NewEngine sampleHost).loadAgent "nonexistent" =
      Except.error ("agent '" ++ "nonexistent" ++ "' not found in any location") ∧
    (NewEngine sampleHost).Execute
        { AgentName := "nonexistent", Input := "hello", Context := [], Tools := [] } =
      Except.ok
        { Output := ""
          Success := false
          Error := "Failed to load agent: agent '" ++ "nonexistent" ++
            "' not found in any location"
          Context := []
          Handoff := none } :=
  execute_unresolvable_agent (NewEngine sampleHost)
    { AgentName := "nonexistent", Input := "hello", Context := [], Tools := [] }
    (by decide) (by decide) (by decide)

theorem Execute_unknown_mode (e : Engine) (req : ExecuteRequest) (agent : AgentResource)
    (hload : e.loadAgent req.AgentName = Except.ok agent)
    (hp : agent.Mode ≠ "primary") (hs : agent.Mode ≠ "subagent") :
    e.Execute req =
      Except.ok
        { Output := "", Success := false, Error := "Unknown agent mode: " ++ agent.Mode
          Context := [], Handoff := none } := by
  simp [Engine.Execute, hload, hp, hs]

/-- A metadata block without a `mode:` line leaves the mode empty. -/
theorem parseInstalledAgent_mode_empty (scanFloat : String → Rat) (name content : String)
    (pre ms bs : List String)
    (hsplit : Split content '\n' = pre ++ "---" :: (ms ++ "---" :: bs))
    (hpre : "---" ∉ pre) (hms : "---" ∉ ms)
    (hmode : ∀ l, l ∈ ms → HasPrefix (TrimSpace l) "mode:" = false) :
    (parseInstalledAgent scanFloat name content).Mode = "" := by
  rw [parseInstalledAgent_of_bounds scanFloat name content pre ms bs hsplit hpre hms]
  simp only [parseFrontmatter]
  cases hms' : ms with
  | nil =>
    have hlines : Split (Join [] "\n") '\n' = [""] := by decide
    rw [hlines]
    exact foldl_parseFrontmatterLine_mode scanFloat [""] _ (by decide)
  | cons m rest =>
    have hne : ms ≠ [] := by rw [hms']; exact List.cons_ne_nil m rest
    have hnl : ∀ l, l ∈ ms → '\n' ∉ l.data := by
      intro l hl
      apply Split_no_newline content l
      rw [hsplit]
      simp [hl]
    rw [← hms', Split_Join ms hne hnl]
    exact foldl_parseFrontmatterLine_mode scanFloat ms _ hmode

/-- C14: a resolved definition whose mode is neither `primary` nor `subagent`
makes `Engine.Execute` return `Success = false` with the error
`Unknown agent mode: <mode>`; a text whose metadata block (the lines between
its first two `---` lines) has no `mode:` line is parsed with the empty mode,
and executing such a user-scope definition returns the error
`Unknown agent mode: ` with the empty mode. -/
theorem execute_unknown_mode :
    (∀ (e : Engine) (req : ExecuteRequest) (agent : AgentResource),
      e.loadAgent req.AgentName = Except.ok agent →
      agent.Mode ≠ "primary" → agent.Mode ≠ "subagent" →
      e.Execute req =
        Except.ok
          { Output := "", Success := false, Error := "Unknown agent mode: " ++ agent.Mode
            Context := [], Handoff := none }) ∧
    (∀ (scanFloat : String → Rat) (name content : String) (pre ms bs : List String),
      Split content '\n' = pre ++ "---" :: (ms ++ "---" :: bs) →
      "---" ∉ pre → "---" ∉ ms →
      (∀ l, l ∈ ms → HasPrefix (TrimSpace l) "mode:" = false) →
      (parseInstalledAgent scanFloat name content).Mode = "") ∧
    (∀ (h : Host) (req : ExecuteRequest) (content : String) (pre ms bs : List String),
      h.readAgentFile Scope.UserScope req.AgentName = some content →
      Split content '\n' = pre ++ "---" :: (ms ++ "---" :: bs) →
      "---" ∉ pre → "---" ∉ ms →
      (∀ l, l ∈ ms → HasPrefix (TrimSpace l) "mode:" = false) →
      (NewEngine h).Execute req =
        Except.ok
          { Output := "", Success := false, Error := "Unknown agent mode: "
            Context := [], Handoff := none }) := by
  refine ⟨Execute_unknown_mode, parseInstalledAgent_mode_empty, ?_⟩
  intro h req content pre ms bs hfile hsplit hpre hms hmode
  have hempty := parseInstalledAgent_mode_empty h.scanFloat req.AgentName content pre ms bs
    hsplit hpre hms hmode
  have hload : (NewEngine h).loadAgent req.AgentName =
      Except.ok (parseInstalledAgent h.scanFloat req.AgentName content) := by
    rw [NewEngine_loadAgent, hfile]
  have := Execute_unknown_mode (NewEngine h) req _ hload
    (by rw [hempty]; decide) (by rw [hempty]; decide)
  rw [this, hempty]
  rfl

/-- Witness of C14: the user-scope definition `scribe` of `sampleHost` has a
metadata block with a description and a tools line, and no mode. -/
theorem execute_unknown_mode_witness :
    (NewEngine sampleHost).Execute
        { AgentName := "scribe", Input := "hello", Context := [], Tools := [] } =
      Except.ok
        { Output := "", Success := false, Error := "Unknown agent mode: "
          Context := [], Handoff := none } :=
  execute_unknown_mode.2.2 sampleHost
    { AgentName := "scribe", Input := "hello", Context := [], Tools := [] }
    "---\ndescription: Takes notes\ntools:\n  read: true\n---\nWrite it down."
    [] ["description: Takes notes", "tools:", "  read: true"] ["Write it down."]
    (by decide) (by decide) (by decide) (by decide) (by decide)

/-! ## Execution of a resolved definition -/

/-- C15: when the agent name of a request resolves to a definition of mode
`primary` or `subagent`, `Engine.Execute` returns `Success = true`, an empty
`Error` and a non-empty `Output` that contains the agent name and the input and
begins with `Executed <name> agent with input: <input>` and a newline for a
primary agent, with `Executed <name> subagent with input: <input>` and a newline
for a subagent. -/
theorem execute_known_mode (h : Host) (req : ExecuteRequest) (agent : AgentResource)
    (hload : (NewEngine h).loadAgent req.AgentName = Except.ok agent)
    (hmode : agent.Mode = "primary" ∨ agent.Mode = "subagent") :
    ∃ resp, (NewEngine h).Execute req = Except.ok resp ∧
      resp.Success = true ∧ resp.Error = "" ∧ resp.Output ≠ "" ∧
      Contains resp.Output req.AgentName = true ∧ Contains resp.Output req.Input = true ∧
      (agent.Mode = "primary" →
        HasPrefix resp.Output
          ("Executed " ++ req.AgentName ++ " agent with input: " ++ req.Input ++ "\n") = true) ∧
      (agent.Mode = "subagent" →
        HasPrefix resp.Output
          ("Executed " ++ req.AgentName ++ " subagent with input: " ++ req.Input ++ "\n") =
            true) := by
  have hname : agent.Name = req.AgentName := NewEngine_loadAgent_name h _ _ hload
  have hsp : ¬ ("subagent" = "primary") := by decide
  rcases hmode with hp | hs
  · refine ⟨_, by simp only [Engine.Execute, hload, hp, if_true]; rfl, rfl, rfl, ?_, ?_, ?_,
      ?_, ?_⟩
    · simp only [hname, String.append_assoc]
      exact executed_ne_empty _
    · have := data_infix_of_append "Executed " req.AgentName
        (" agent with input: " ++ req.Input ++ "\n" ++
          ("Mode: " ++ agent.Mode ++ ", Temperature: " ++ fmtF1 agent.Temperature ++ "\n") ++
          ("Available tools: " ++ fmtBoolMap agent.Tools ++ "\n"))
      simpa [hname, String.append_assoc] using this
    · have := data_infix_of_append ("Executed " ++ req.AgentName ++ " agent with input: ")
        req.Input
        ("\n" ++
          ("Mode: " ++ agent.Mode ++ ", Temperature: " ++ fmtF1 agent.Temperature ++ "\n") ++
          ("Available tools: " ++ fmtBoolMap agent.Tools ++ "\n"))
      simpa [hname, String.append_assoc] using this
    · intro _
      have := HasPrefix_append
        ("Executed " ++ req.AgentName ++ " agent with input: " ++ req.Input ++ "\n")
        (("Mode: " ++ agent.Mode ++ ", Temperature: " ++ fmtF1 agent.Temperature ++ "\n") ++
          ("Available tools: " ++ fmtBoolMap agent.Tools ++ "\n"))
      simpa [hname, String.append_assoc] using this
    · intro hs
      rw [hp] at hs
      exact absurd hs.symm hsp
  · have hnp : ¬ agent.Mode = "primary" := by rw [hs]; exact hsp
    refine ⟨_, by simp only [Engine.Execute, hload, hnp, hs, if_true, if_false]; rfl, rfl, rfl,
      ?_, ?_, ?_, ?_, ?_⟩
    · simp only [hname, String.append_assoc]
      exact executed_ne_empty _
    · have := data_infix_of_append "Executed " req.AgentName
        (" subagent with input: " ++ req.Input ++ "\n" ++
          ("Mode: " ++ agent.Mode ++ ", Temperature: " ++ fmtF1 agent.Temperature ++ "\n") ++
          ("Available tools: " ++ fmtBoolMap agent.Tools ++ "\n"))
      simpa [hname, String.append_assoc] using this
    · have := data_infix_of_append ("Executed " ++ req.AgentName ++ " subagent with input: ")
        req.Input
        ("\n" ++
          ("Mode: " ++ agent.Mode ++ ", Temperature: " ++ fmtF1 agent.Temperature ++ "\n") ++
          ("Available tools: " ++ fmtBoolMap agent.Tools ++ "\n"))
      simpa [hname, String.append_assoc] using this
    · intro hp
      exact absurd hp hnp
    · intro _
      have := HasPrefix_append
        ("Executed " ++ req.AgentName ++ " subagent with input: " ++ req.Input ++ "\n")
        (("Mode: " ++ agent.Mode ++ ", Temperature: " ++ fmtF1 agent.Temperature ++ "\n") ++
          ("Available tools: " ++ fmtBoolMap agent.Tools ++ "\n"))
      simpa [hname, String.append_assoc] using this

/-- Witness of C15: the embedded `architect` of `sampleHost`, a primary
agent, and its project-scope `helper`, a subagent. -/
theorem execute_known_mode_witness :
    (∃ resp, (NewEngine sampleHost).Execute
          { AgentName := "architect", Input := "Design", Context := [], Tools := [] } =
        Except.ok resp ∧
      resp.Success = true ∧ resp.Error = "" ∧ resp.Output ≠ "" ∧
      Contains resp.Output "architect" = true ∧ Contains resp.Output "Design" = true ∧
      ((parseAgentContent "architect.md"
          "# Architect\n\n## Role\nDesigns the system.\n\n## Rules\nBe brief.").Mode = "primary" →
        HasPrefix resp.Output
          ("Executed " ++ "architect" ++ " agent with input: " ++ "Design" ++ "\n") = true) ∧
      ((parseAgentContent "architect.md"
          "# Architect\n\n## Role\nDesigns the system.\n\n## Rules\nBe brief.").Mode = "subagent" →
        HasPrefix resp.Output
          ("Executed " ++ "architect" ++ " subagent with input: " ++ "Design" ++ "\n") =
            true)) ∧
    (∃ resp, (NewEngine sampleHost).Execute
          { AgentName := "helper", Input := "Help", Context := [], Tools := [] } =
        Except.ok resp ∧
      resp.Success = true ∧ resp.Error = "" ∧ resp.Output ≠ "" ∧
      Contains resp.Output "helper" = true ∧ Contains resp.Output "Help" = true ∧
      ((parseInstalledAgent sampleHost.scanFloat "helper" "Just a body").Mode = "primary" →
        HasPrefix resp.Output
          ("Executed " ++ "helper" ++ " agent with input: " ++ "Help" ++ "\n") = true) ∧
      ((parseInstalledAgent sampleHost.scanFloat "helper" "Just a body").Mode = "subagent" →
        HasPrefix resp.Output
          ("Executed " ++ "helper" ++ " subagent with input: " ++ "Help" ++ "\n") = true)) :=
  ⟨execute_known_mode sampleHost
      { AgentName := "architect", Input := "Design", Context := [], Tools := [] }
      (parseAgentContent "architect.md"
        "# Architect\n\n## Role\nDesigns the system.\n\n## Rules\nBe brief.")
      rfl (Or.inl (by decide)),
   execute_known_mode sampleHost
      { AgentName := "helper", Input := "Help", Context := [], Tools := [] }
      (parseInstalledAgent sampleHost.scanFloat "helper" "Just a body")
      rfl (Or.inr (by decide))⟩

/-- C16: a successful `Engine.Execute` carries a handoff suggestion exactly
when the resolved definition has mode `primary` and is named `architect` or
`implementer`; the suggestion of `architect` names `implementer`, that of
`implementer` names `tester`; a subagent returns none, whatever its name. -/
theorem handoff_iff_known_primary (e : Engine) (req : ExecuteRequest) (agent : AgentResource)
    (resp : ExecuteResponse)
    (hload : e.loadAgent req.AgentName = Except.ok agent)
    (hexec : e.Execute req = Except.ok resp) (hsucc : resp.Success = true) :
    (resp.Handoff ≠ none ↔
      agent.Mode = "primary" ∧ (agent.Name = "architect" ∨ agent.Name = "implementer")) ∧
    (agent.Mode = "primary" → agent.Name = "architect" →
      ∃ handoff, resp.Handoff = some handoff ∧ handoff.AgentName = "implementer") ∧
    (agent.Mode = "primary" → agent.Name = "implementer" →
      ∃ handoff, resp.Handoff = some handoff ∧ handoff.AgentName = "tester") ∧
    (agent.Mode = "subagent" → resp.Handoff = none) := by
  have hsp : ¬ ("subagent" = "primary") := by decide
  have hia : ¬ ("implementer" = "architect") := by decide
  by_cases hp : agent.Mode = "primary"
  · simp only [Engine.Execute, hload, hp, if_true, Engine.executePrimaryAgent,
      Except.ok.injEq] at hexec
    subst hexec
    by_cases ha : agent.Name = "architect"
    · simp [hp, ha]
    · by_cases hi : agent.Name = "implementer"
      · simp [hp, hi, hia]
      · simp [hp, ha, hi]
  · by_cases hs : agent.Mode = "subagent"
    · simp only [Engine.Execute, hload, if_neg hp, if_pos hs, Engine.executeSubAgent,
        Except.ok.injEq] at hexec
      subst hexec
      simp [hp]
    · rw [Execute_unknown_mode e req agent hload hp hs] at hexec
      simp only [Except.ok.injEq] at hexec
      subst hexec
      simp at hsucc

/-- Witness of C16: the embedded `architect` of `sampleHost` is primary and
its response suggests `implementer`. -/
theorem handoff_iff_known_primary_witness :
    (NewEngine sampleHost).Execute architectRequest = Except.ok architectResponse ∧
    architectResponse.Success = true ∧
    ∃ handoff, architectResponse.Handoff = some handoff ∧ handoff.AgentName = "implementer" :=
  ⟨rfl, rfl,
   (handoff_iff_known_primary (NewEngine sampleHost) architectRequest
      (parseAgentContent "architect.md"
        "# Architect\n\n## Role\nDesigns the system.\n\n## Rules\nBe brief.")
      architectResponse rfl rfl rfl).2.1 (by decide) (by decide)⟩

/-! ## Precedence of the sources -/

theorem GetAgent_mem (readDir : Except String (List DirEntry)) (name : String)
    (agent : AgentResource) (h : GetAgent readDir name = Except.ok agent) :
    ∃ agents, GetAvailableAgents readDir = Except.ok agents ∧ agent ∈ agents := by
  unfold GetAgent at h
  cases hav : GetAvailableAgents readDir with
  | error err => simp [hav] at h
  | ok agents =>
    simp only [hav] at h
    cases hf : agents.find? (fun a => decide (a.Name = name)) with
    | none => simp [hf] at h
    | some found =>
      simp only [hf, Except.ok.injEq] at h
      rw [← h]
      exact ⟨agents, rfl, List.mem_of_find?_eq_some hf⟩

/-- A definition `GetAgent` returns is the parse of an embedded file. -/
theorem GetAgent_source (entries : List DirEntry) (name : String) (agent : AgentResource)
    (h : GetAgent (Except.ok entries) name = Except.ok agent) :
    ∃ entry content, entry ∈ entries ∧ entry.IsDir = false ∧
      HasSuffix entry.Name ".md" = true ∧ entry.Content = some content ∧
      agent = parseAgentContent entry.Name content := by
  obtain ⟨agents, hav, hmem⟩ := GetAgent_mem _ _ _ h
  unfold GetAvailableAgents at hav
  simp only [Except.ok.injEq] at hav
  rw [← hav, List.mem_filterMap] at hmem
  obtain ⟨entry, hentry, hsome⟩ := hmem
  cases hd : entry.IsDir with
  | true => simp [hd] at hsome
  | false =>
    cases hsuf : HasSuffix entry.Name ".md" with
    | false => simp [hd, hsuf] at hsome
    | true =>
      cases hc : entry.Content with
      | none => simp [hd, hsuf, hc] at hsome
      | some content =>
        simp only [hd, hsuf, hc] at hsome
        refine ⟨entry, content, hentry, hd, hsuf, hc, ?_⟩
        simpa using hsome.symm

/-- C17: `loadAgent` returns the definition parsed from the user-scope text
when there is one; otherwise the one parsed from the project-scope text when
there is one; otherwise the embedded definition `GetAgent` finds for the name,
which is the parse of one embedded file; otherwise the error.  The definition
returned is in each case the whole parse of that one source. -/
theorem loadAgent_precedence (h : Host) (name : String) :
    (∀ text, h.readAgentFile Scope.UserScope name = some text →
      (NewEngine h).loadAgent name = Except.ok (parseInstalledAgent h.scanFloat name text)) ∧
    (h.readAgentFile Scope.UserScope name = none →
      ∀ text, h.readAgentFile Scope.ProjectScope name = some text →
        (NewEngine h).loadAgent name =
          Except.ok (parseInstalledAgent h.scanFloat name text)) ∧
    (h.readAgentFile Scope.UserScope name = none →
      h.readAgentFile Scope.ProjectScope name = none →
      ∀ agent, GetAgent h.readEmbeddedDir name = Except.ok agent →
        (NewEngine h).loadAgent name = Except.ok agent ∧
        ∀ entries, h.readEmbeddedDir = Except.ok entries →
          ∃ entry content, entry ∈ entries ∧ entry.Content = some content ∧
            agent = parseAgentContent entry.Name content) ∧
    (h.readAgentFile Scope.UserScope name = none →
      h.readAgentFile Scope.ProjectScope name = none →
      ∀ err, GetAgent h.readEmbeddedDir name = Except.error err →
        (NewEngine h).loadAgent name =
          Except.error ("agent '" ++ name ++ "' not found in any location")) := by
  refine ⟨?_, ?_, ?_, ?_⟩
  · intro text hu
    rw [NewEngine_loadAgent, hu]
  · intro hu text hp
    rw [NewEngine_loadAgent, hu, hp]
  · intro hu hp agent hg
    refine ⟨by rw [NewEngine_loadAgent, hu, hp, hg], ?_⟩
    intro entries hentries
    rw [hentries] at hg
    obtain ⟨entry, content, hmem, _, _, hc, ha⟩ := GetAgent_source entries name agent hg
    exact ⟨entry, content, hmem, hc, ha⟩
  · intro hu hp err hg
    rw [NewEngine_loadAgent, hu, hp, hg]

/-- Witness of C17 on `sampleHost`: `tester` has a text in both scopes and an
embedded file, and the user-scope text wins; `helper` has a project-scope text
only; `architect` is embedded only; `nonexistent` is nowhere. -/
theorem loadAgent_precedence_witness :
    (NewEngine sampleHost).loadAgent "tester" =
      Except.ok (parseInstalledAgent sampleHost.scanFloat "tester"
        "---\nmode: primary\n---\nUser tester") ∧
    (NewEngine sampleHost).loadAgent "helper" =
      Except.ok (parseInstalledAgent sampleHost.scanFloat "helper" "Just a body") ∧
    ((NewEngine sampleHost).loadAgent "architect" =
        Except.ok (parseAgentContent "architect.md"
          "# Architect\n\n## Role\nDesigns the system.\n\n## Rules\nBe brief.") ∧
      ∀ entries, sampleHost.readEmbeddedDir = Except.ok entries →
        ∃ entry content, entry ∈ entries ∧ entry.Content = some content ∧
          parseAgentContent "architect.md"
              "# Architect\n\n## Role\nDesigns the system.\n\n## Rules\nBe brief." =
            parseAgentContent entry.Name content) ∧
    (NewEngine sampleHost).loadAgent "nonexistent" =
      Except.error ("agent '" ++ "nonexistent" ++ "' not found in any location") :=
  ⟨(loadAgent_precedence sampleHost "tester").1 _ rfl,
   (loadAgent_precedence sampleHost "helper").2.1 rfl _ rfl,
   (loadAgent_precedence sampleHost "architect").2.2.1 rfl rfl _ rfl,
   (loadAgent_precedence sampleHost "nonexistent").2.2.2 rfl rfl "agent nonexistent not found"
     rfl⟩

/-- C18: whenever `loadAgent` succeeds, the definition it returns has the
requested name, whether a user-scope text, a project-scope text or an embedded
file supplied it: `parseInstalledAgent` names the definition as asked, and
`GetAgent` returns a definition only if its name is the one asked for. -/
theorem loadAgent_returns_requested_name (h : Host) (name : String) (agent : AgentResource)
    (hload : (NewEngine h).loadAgent name = Except.ok agent) :
    agent.Name = name ∧
    (∀ (scanFloat : String → Rat) (content : String),
      (parseInstalledAgent scanFloat name content).Name = name) ∧
    (∀ (readDir : Except String (List DirEntry)) (found : AgentResource),
      GetAgent readDir name = Except.ok found → found.Name = name) :=
  ⟨NewEngine_loadAgent_name h name agent hload,
   fun scanFloat content => parseInstalledAgent_name scanFloat name content,
   fun readDir found hg => GetAgent_name readDir name found hg⟩

/-- Witness of C18: the names `tester` (user scope), `helper` (project scope)
and `architect` (embedded) on `sampleHost`. -/
theorem loadAgent_returns_requested_name_witness :
    (parseInstalledAgent sampleHost.scanFloat "tester"
      "---\nmode: primary\n---\nUser tester").Name = "tester" ∧
    (parseInstalledAgent sampleHost.scanFloat "helper" "Just a body").Name = "helper" ∧
    (parseAgentContent "architect.md"
      "# Architect\n\n## Role\nDesigns the system.\n\n## Rules\nBe brief.").Name = "architect" :=
  ⟨(loadAgent_returns_requested_name sampleHost "tester" _ rfl).1,
   (loadAgent_returns_requested_name sampleHost "helper" _ rfl).1,
   (loadAgent_returns_requested_name sampleHost "architect" _ rfl).1⟩

/-! ## Built-in defaults -/

/-- The defaults the code gives to a name are those of the table: same mode,
same temperature, same permission for every tool name. -/
theorem getAgentDefaults_matches_table (name : String) :
    (getAgentDefaults name).1 = (defaultsTable name).1 ∧
    (getAgentDefaults name).2.1 = (defaultsTable name).2.1 ∧
    ∀ k, GoMap.get (getAgentDefaults name).2.2 k = GoMap.get (defaultsTable name).2.2 k := by
  by_cases h0 : name = "implementer"
  · subst h0
    refine ⟨by simp [getAgentDefaults, defaultsTable, defaultRows], ?_, ?_⟩
    · simp [getAgentDefaults, defaultsTable, defaultRows]
      norm_num [Rat.mkRat_eq_div]
    · intro k
      simp [getAgentDefaults, defaultsTable, defaultRows, GoMap.set, GoMap.get]
  by_cases h1 : name = "architect"
  · subst h1
    refine ⟨by simp [getAgentDefaults, defaultsTable, defaultRows], ?_, ?_⟩
    · simp [getAgentDefaults, defaultsTable, defaultRows]
      norm_num [Rat.mkRat_eq_div]
    · intro k
      simp [getAgentDefaults, defaultsTable, defaultRows, GoMap.set, GoMap.get]
      split_ifs <;> subst_vars <;> simp_all
  by_cases h2 : name = "tester"
  · subst h2
    refine ⟨by simp [getAgentDefaults, defaultsTable, defaultRows], ?_, ?_⟩
    · simp [getAgentDefaults, defaultsTable, defaultRows]
      norm_num [Rat.mkRat_eq_div]
    · intro k
      simp [getAgentDefaults, defaultsTable, defaultRows, GoMap.set, GoMap.get]
  by_cases h3 : name = "debugger"
  · subst h3
    refine ⟨by simp [getAgentDefaults, defaultsTable, defaultRows], ?_, ?_⟩
    · simp [getAgentDefaults, defaultsTable, defaultRows]
      norm_num [Rat.mkRat_eq_div]
    · intro k
      simp [getAgentDefaults, defaultsTable, defaultRows, GoMap.set, GoMap.get]
  by_cases h4 : name = "reviewer"
  · subst h4
    refine ⟨by simp [getAgentDefaults, defaultsTable, defaultRows], ?_, ?_⟩
    · simp [getAgentDefaults, defaultsTable, defaultRows]
      norm_num [Rat.mkRat_eq_div]
    · intro k
      simp [getAgentDefaults, defaultsTable, defaultRows, GoMap.set, GoMap.get]
      split_ifs <;> subst_vars <;> simp_all
  by_cases h5 : name = "refactorer"
  · subst h5
    refine ⟨by simp [getAgentDefaults, defaultsTable, defaultRows], ?_, ?_⟩
    · simp [getAgentDefaults, defaultsTable, defaultRows]
      norm_num [Rat.mkRat_eq_div]
    · intro k
      simp [getAgentDefaults, defaultsTable, defaultRows, GoMap.set, GoMap.get]
      split_ifs <;> subst_vars <;> simp_all
  by_cases h6 : name = "documenter"
  · subst h6
    refine ⟨by simp [getAgentDefaults, defaultsTable, defaultRows], ?_, ?_⟩
    · simp [getAgentDefaults, defaultsTable, defaultRows]
      norm_num [Rat.mkRat_eq_div]
    · intro k
      simp [getAgentDefaults, defaultsTable, defaultRows, GoMap.set, GoMap.get]
      split_ifs <;> subst_vars <;> simp_all
  by_cases h7 : name = "researcher"
  · subst h7
    refine ⟨by simp [getAgentDefaults, defaultsTable, defaultRows], ?_, ?_⟩
    · simp [getAgentDefaults, defaultsTable, defaultRows]
      norm_num [Rat.mkRat_eq_div]
    · intro k
      simp [getAgentDefaults, defaultsTable, defaultRows, GoMap.set, GoMap.get]
      split_ifs <;> subst_vars <;> simp_all
  refine ⟨by simp [getAgentDefaults, defaultsTable, defaultRows, h0, h1, h2, h3, h4, h5, h6, h7], ?_, ?_⟩
  · simp [getAgentDefaults, defaultsTable, defaultRows, h0, h1, h2, h3, h4, h5, h6, h7]
    norm_num [Rat.mkRat_eq_div]
  · intro k
    simp [getAgentDefaults, defaultsTable, defaultRows, GoMap.set, GoMap.get, h0, h1, h2, h3, h4, h5, h6, h7]

/-- C19: `getAgentDefaults` agrees with the fixed table on every name, in mode,
in temperature and in the permission of every tool name (a tool the table does
not list is absent), and a built-in definition parsed by `parseAgentContent`
carries the table's values for its name. -/
theorem getAgentDefaults_table :
    (∀ name : String,
      (getAgentDefaults name).1 = (defaultsTable name).1 ∧
      (getAgentDefaults name).2.1 = (defaultsTable name).2.1 ∧
      ∀ k, GoMap.get (getAgentDefaults name).2.2 k = GoMap.get (defaultsTable name).2.2 k) ∧
    (∀ filename content : String,
      (parseAgentContent filename content).Name = TrimSuffix filename ".md" ∧
      (parseAgentContent filename content).Mode =
        (defaultsTable (parseAgentContent filename content).Name).1 ∧
      (parseAgentContent filename content).Temperature =
        (defaultsTable (parseAgentContent filename content).Name).2.1 ∧
      ∀ k, GoMap.get (parseAgentContent filename content).Tools k =
        GoMap.get (defaultsTable (parseAgentContent filename content).Name).2.2 k) ∧
    (getAgentDefaults "architect").1 = "primary" ∧
    (getAgentDefaults "architect").2.1 = 0.2 ∧
    (["read", "webfetch", "write", "edit", "bash", "grep"].map
        (GoMap.get (getAgentDefaults "architect").2.2)) =
      [some true, some true, some false, some false, some false, none] := by
  refine ⟨getAgentDefaults_matches_table, ?_, by decide, ?_, by decide⟩
  · intro filename content
    have h := getAgentDefaults_matches_table (TrimSuffix filename ".md")
    exact ⟨rfl, h.1, h.2.1, h.2.2⟩
  · simp [getAgentDefaults]
    norm_num [Rat.mkRat_eq_div]

/-! ## The metadata block of an installed definition -/

/-- C20: for a text whose first line is `---` and that has a later `---` line,
`parseInstalledAgent` parses the lines strictly between the first two `---`
lines as the metadata block and returns as body the lines after the second
`---` line joined by newlines; so for a metadata block `m` with no `---` line,
parsing `---`, newline, `m`, newline, `---`, newline, `b` gives the body `b`. -/
theorem parseInstalledAgent_frontmatter :
    (∀ (scanFloat : String → Rat) (name content : String) (ms bs : List String),
      Split content '\n' = "---" :: (ms ++ "---" :: bs) → "---" ∉ ms →
      parseInstalledAgent scanFloat name content =
        { parseFrontmatter scanFloat (Join ms "\n")
            { Name := name, Description := "", Content := "", Mode := "", Temperature := 0,
              Tools := [] } with
          Content := Join bs "\n" }) ∧
    (∀ (scanFloat : String → Rat) (name m b : String),
      "---" ∉ Split m '\n' →
      parseInstalledAgent scanFloat name ("---\n" ++ m ++ "\n---\n" ++ b) =
        { parseFrontmatter scanFloat m
            { Name := name, Description := "", Content := "", Mode := "", Temperature := 0,
              Tools := [] } with
          Content := b }) := by
  constructor
  · intro scanFloat name content ms bs hsplit hms
    exact parseInstalledAgent_of_bounds scanFloat name content [] ms bs
      (by simpa using hsplit) (by simp) hms
  · intro scanFloat name m b hm
    have h1 : "---\n" = "---" ++ "\n" := by decide
    have h2 : "\n---\n" = "\n" ++ ("---" ++ "\n") := by decide
    have hcontent : "---\n" ++ m ++ "\n---\n" ++ b =
        "---" ++ "\n" ++ (m ++ "\n" ++ ("---" ++ "\n" ++ b)) := by
      rw [h1, h2]
      simp only [String.append_assoc]
    have hdash : Split "---" '\n' = ["---"] := by decide
    have hsplit : Split ("---\n" ++ m ++ "\n---\n" ++ b) '\n' =
        [] ++ "---" :: (Split m '\n' ++ "---" :: Split b '\n') := by
      rw [hcontent, Split_append_newline, Split_append_newline, Split_append_newline, hdash]
      rfl
    rw [parseInstalledAgent_of_bounds scanFloat name _ [] (Split m '\n') (Split b '\n') hsplit
      (by simp) hm, Join_Split, Join_Split]

/-- Witness of C20: a metadata block of two lines and a body of two lines. -/
theorem parseInstalledAgent_frontmatter_witness :
    (parseInstalledAgent sampleHost.scanFloat "scribe"
      ("---\n" ++ "description: Takes notes\nmode: subagent" ++ "\n---\n" ++
        "Write it down.\nKeep it short.")).Content = "Write it down.\nKeep it short." ∧
    (parseInstalledAgent sampleHost.scanFloat "scribe"
      ("---\n" ++ "description: Takes notes\nmode: subagent" ++ "\n---\n" ++
        "Write it down.\nKeep it short.")).Mode = "subagent" ∧
    (parseInstalledAgent sampleHost.scanFloat "scribe"
      ("---\n" ++ "description: Takes notes\nmode: subagent" ++ "\n---\n" ++
        "Write it down.\nKeep it short.")).Description = "Takes notes" :=
  have h := parseInstalledAgent_frontmatter.2 sampleHost.scanFloat "scribe"
    "description: Takes notes\nmode: subagent" "Write it down.\nKeep it short." (by decide)
  ⟨by rw [h], by rw [h]; decide, by rw [h]; decide⟩

/-! ## The predefined workflows -/

/-- C24: `GetWorkflow` returns a workflow exactly for the names `new-feature`,
`bug-fix` and `code-improvement`; the workflow returned has the requested name
and is one of those `ListWorkflows` returns; for every other name the error is
`workflow '<name>' not found`. -/
theorem GetWorkflow_by_name (name : String) :
    ((∃ w, GetWorkflow name = Except.ok w) ↔
      name = "new-feature" ∨ name = "bug-fix" ∨ name = "code-improvement") ∧
    (∀ w, GetWorkflow name = Except.ok w → w.Name = name ∧ w ∈ ListWorkflows) ∧
    (¬ (name = "new-feature" ∨ name = "bug-fix" ∨ name = "code-improvement") →
      GetWorkflow name = Except.error ("workflow '" ++ name ++ "' not found")) := by
  by_cases h1 : name = "new-feature"
  · subst h1
    refine ⟨⟨fun _ => Or.inl rfl, fun _ => ⟨NewFeatureWorkflow, rfl⟩⟩, ?_, ?_⟩
    · intro w hw
      have hw' : NewFeatureWorkflow = w := by simpa [GetWorkflow] using hw
      subst hw'
      exact ⟨rfl, by simp [ListWorkflows]⟩
    · intro hn
      exact absurd (Or.inl rfl) hn
  by_cases h2 : name = "bug-fix"
  · subst h2
    refine ⟨⟨fun _ => Or.inr (Or.inl rfl), fun _ => ⟨BugFixWorkflow, rfl⟩⟩, ?_, ?_⟩
    · intro w hw
      have hw' : BugFixWorkflow = w := by simpa [GetWorkflow] using hw
      subst hw'
      exact ⟨rfl, by simp [ListWorkflows]⟩
    · intro hn
      exact absurd (Or.inr (Or.inl rfl)) hn
  by_cases h3 : name = "code-improvement"
  · subst h3
    refine ⟨⟨fun _ => Or.inr (Or.inr rfl), fun _ => ⟨CodeImprovementWorkflow, rfl⟩⟩, ?_, ?_⟩
    · intro w hw
      have hw' : CodeImprovementWorkflow = w := by simpa [GetWorkflow] using hw
      subst hw'
      exact ⟨rfl, by simp [ListWorkflows]⟩
    · intro hn
      exact absurd (Or.inr (Or.inr rfl)) hn
  have herr : GetWorkflow name = Except.error ("workflow '" ++ name ++ "' not found") := by
    simp [GetWorkflow, h1, h2, h3]
  refine ⟨⟨?_, ?_⟩, ?_, fun _ => herr⟩
  · rintro ⟨w, hw⟩
    rw [herr] at hw
    exact Except.noConfusion hw
  · rintro (h | h | h)
    · exact absurd h h1
    · exact absurd h h2
    · exact absurd h h3
  · intro w hw
    rw [herr] at hw
    exact Except.noConfusion hw

/-- Witness of C24: the name `bug-fix` and the name `nonexistent`. -/
theorem GetWorkflow_by_name_witness :
    (BugFixWorkflow.Name = "bug-fix" ∧ BugFixWorkflow ∈ ListWorkflows) ∧
    GetWorkflow "nonexistent" =
      Except.error ("workflow '" ++ "nonexistent" ++ "' not found") :=
  ⟨(GetWorkflow_by_name "bug-fix").2.1 BugFixWorkflow rfl,
   (GetWorkflow_by_name "nonexistent").2.2 (by decide)⟩

/-! ## Texts without a metadata block -/

theorem frontmatterBounds_of_not_mem (lines : List String) (i : Nat) (start : Option Nat)
    (h : "---" ∉ lines) : frontmatterBounds lines i start = (start, none) := by
  have := frontmatterBounds_skip [] start lines i h
  simpa [frontmatterBounds] using this

theorem frontmatterBounds_of_count_le_one :
    ∀ (lines : List String) (i : Nat), lines.count "---" ≤ 1 →
      (frontmatterBounds lines i none).2 = none := by
  intro lines
  induction lines with
  | nil => intro i _; rfl
  | cons line rest ih =>
    intro i h
    by_cases hl : line = "---"
    · subst hl
      have hrest : "---" ∉ rest := by
        intro hmem
        have hpos : 0 < rest.count "---" := List.count_pos_iff.2 hmem
        simp only [List.count_cons_self] at h
        omega
      simp [frontmatterBounds, frontmatterBounds_of_not_mem rest (i + 1) (some i) hrest]
    · have hcount : rest.count "---" ≤ 1 := by
        have hne : ¬ ((line == "---") = true) := by simpa using hl
        rw [List.count_cons] at h
        simp only [hne, if_false] at h
        simpa using h
      simp [frontmatterBounds, hl, ih (i + 1) hcount]

theorem parseInstalledAgent_of_no_pair (scanFloat : String → Rat) (name content : String)
    (h : (frontmatterBounds (Split content '\n') 0 none).2 = none) :
    parseInstalledAgent scanFloat name content =
      { Name := name, Description := "", Content := content, Mode := "subagent",
        Temperature := mkRat 3 10, Tools := [] } := by
  unfold parseInstalledAgent
  cases hb : frontmatterBounds (Split content '\n') 0 none with
  | mk first second =>
    rw [hb] at h
    simp only at h
    subst h
    cases first <;> simp only [hb]

/-- C21, the code at the failing input: `lateFrontmatterText` does not begin
with a `---` line, yet the parser finds the two `---` lines further down, takes
the line between them as metadata, drops the line `intro` and returns the mode
`primary` and the body `body`, not the mode `subagent` and the entire text. -/
theorem late_frontmatter_is_parsed :
    (Split lateFrontmatterText '\n').head? = some "intro" ∧
    (parseInstalledAgent sampleHost.scanFloat "late" lateFrontmatterText).Mode = "primary" ∧
    (parseInstalledAgent sampleHost.scanFloat "late" lateFrontmatterText).Content = "body" ∧
    ¬ ((parseInstalledAgent sampleHost.scanFloat "late" lateFrontmatterText).Content =
          lateFrontmatterText ∧
        (parseInstalledAgent sampleHost.scanFloat "late" lateFrontmatterText).Mode =
          "subagent") := by
  decide

/-- A text with fewer than two lines that are exactly `---` (none at all, or no
second one) is parsed to a definition whose `Content` is the entire text, whose
`Mode` is `subagent`, whose `Temperature` is 0.3, whose tool permissions are
empty, whose description is empty and whose `Name` is the given name. -/
theorem parseInstalledAgent_without_frontmatter (scanFloat : String → Rat)
    (name content : String) (h : (Split content '\n').count "---" < 2) :
    (parseInstalledAgent scanFloat name content).Content = content ∧
    (parseInstalledAgent scanFloat name content).Mode = "subagent" ∧
    (parseInstalledAgent scanFloat name content).Temperature = 0.3 ∧
    (parseInstalledAgent scanFloat name content).Tools = [] ∧
    (parseInstalledAgent scanFloat name content).Description = "" ∧
    (parseInstalledAgent scanFloat name content).Name = name := by
  rw [parseInstalledAgent_of_no_pair scanFloat name content
    (frontmatterBounds_of_count_le_one _ 0 (by omega))]
  refine ⟨rfl, rfl, ?_, rfl, rfl, rfl⟩
  norm_num [Rat.mkRat_eq_div]

/-- Two texts parsed to the defaults: one with no `---` line, and one that
begins with a `---` line and has no second one. -/
theorem parseInstalledAgent_without_frontmatter_witness :
    ((parseInstalledAgent sampleHost.scanFloat "helper" "Just a body").Content = "Just a body" ∧
      (parseInstalledAgent sampleHost.scanFloat "helper" "Just a body").Mode = "subagent") ∧
    ((parseInstalledAgent sampleHost.scanFloat "open" "---\nmode: primary\nbody").Content =
        "---\nmode: primary\nbody" ∧
      (parseInstalledAgent sampleHost.scanFloat "open" "---\nmode: primary\nbody").Mode =
        "subagent") :=
  have h1 := parseInstalledAgent_without_frontmatter sampleHost.scanFloat "helper"
    "Just a body" (by decide)
  have h2 := parseInstalledAgent_without_frontmatter sampleHost.scanFloat "open"
    "---\nmode: primary\nbody" (by decide)
  ⟨⟨h1.1, h1.2.1⟩, ⟨h2.1, h2.2.1⟩⟩

/-! ## The lines of a metadata block -/

theorem GoMap.set_set {α : Type} (m : GoMap α) (k : String) (v : α) :
    GoMap.set (GoMap.set m k v) k v = GoMap.set m k v := by
  induction m with
  | nil => simp [GoMap.set]
  | cons kv rest ih =>
    obtain ⟨k0, v0⟩ := kv
    by_cases h0 : k0 = k
    · simp [GoMap.set, h0]
    · simp [GoMap.set, h0, ih]

/-- A string with the prefix `p` begins with the first character of `p`. -/
theorem HasPrefix_head (s p : String) (c : Char) (cs : List Char) (hp : p.data = c :: cs)
    (h : HasPrefix s p = true) : s.data.head? = some c := by
  unfold HasPrefix at h
  rw [List.isPrefixOf_iff_prefix, hp] at h
  obtain ⟨t, ht⟩ := h
  rw [← ht]
  rfl

/-- Two prefixes that begin with different characters exclude each other. -/
theorem HasPrefix_exclusive (s p q : String) (c d : Char) (cs ds : List Char)
    (hp : p.data = c :: cs) (hq : q.data = d :: ds) (hcd : c ≠ d)
    (h : HasPrefix s p = true) : HasPrefix s q = false := by
  cases hq2 : HasPrefix s q with
  | false => rfl
  | true =>
    have h1 := HasPrefix_head s p c cs hp h
    have h2 := HasPrefix_head s q d ds hq hq2
    rw [h1] at h2
    exact absurd (Option.some.inj h2) hcd

theorem parseFrontmatterLine_tools (scanFloat : String → Rat) (agent : AgentResource)
    (line : String) :
    (parseFrontmatterLine scanFloat agent line).Tools =
      if HasPrefix (TrimSpace line) "tools:" then GoMap.set agent.Tools "read" true
      else agent.Tools := by
  cases ht : HasPrefix (TrimSpace line) "tools:" with
  | false =>
    unfold parseFrontmatterLine
    simp only [ht]
    split_ifs <;> first | rfl | contradiction
  | true =>
    have hne : TrimSpace line ≠ "" := by
      intro he
      rw [he] at ht
      exact absurd ht (by decide)
    have hd := HasPrefix_exclusive (TrimSpace line) "tools:" "description:" 't' 'd'
      _ _ rfl rfl (by decide) ht
    have hm := HasPrefix_exclusive (TrimSpace line) "tools:" "mode:" 't' 'm'
      _ _ rfl rfl (by decide) ht
    have hte : HasPrefix (TrimSpace line) "temperature:" = false := by
      cases hq : HasPrefix (TrimSpace line) "temperature:" with
      | false => rfl
      | true =>
        exfalso
        unfold HasPrefix at ht hq
        rw [List.isPrefixOf_iff_prefix] at ht hq
        obtain ⟨a, ha⟩ := ht
        obtain ⟨b, hb⟩ := hq
        rw [← ha] at hb
        have h2 : ("temperature:".data ++ b).get? 1 = ("tools:".data ++ a).get? 1 := by
          rw [hb]
        have e1 : ("temperature:".data ++ b).get? 1 = some 'e' := rfl
        have e2 : ("tools:".data ++ a).get? 1 = some 'o' := rfl
        rw [e1, e2] at h2
        exact absurd (Option.some.inj h2) (by decide)
    unfold parseFrontmatterLine
    simp [hne, hd, hm, hte, ht]

theorem foldl_parseFrontmatterLine_tools (scanFloat : String → Rat) :
    ∀ (lines : List String) (agent : AgentResource),
      (lines.foldl (parseFrontmatterLine scanFloat) agent).Tools =
        if lines.any (fun line => HasPrefix (TrimSpace line) "tools:") then
          GoMap.set agent.Tools "read" true
        else agent.Tools := by
  intro lines
  induction lines with
  | nil => intro agent; rfl
  | cons line lines ih =>
    intro agent
    rw [List.foldl_cons, ih, parseFrontmatterLine_tools, List.any_cons]
    cases h1 : HasPrefix (TrimSpace line) "tools:" <;>
      cases h2 : lines.any (fun line => HasPrefix (TrimSpace line) "tools:") <;>
      simp [GoMap.set_set]

/-- The text of a line before its first colon, when the line begins with that
text and a colon. -/
theorem lineKey_of_key_colon (line key : String) (hkey : ':' ∉ key.data)
    (h : HasPrefix (TrimSpace line) (key ++ ":") = true) : lineKey line = some key := by
  unfold HasPrefix at h
  rw [List.isPrefixOf_iff_prefix, String.data_append] at h
  obtain ⟨t, ht⟩ := h
  have hcolon : ":".data = [':'] := rfl
  rw [hcolon] at ht
  unfold lineKey
  simp only [← ht]
  have hmem : ':' ∈ key.data ++ [':'] ++ t := by simp
  rw [if_pos hmem]
  have htake : List.takeWhile (fun c => decide (c ≠ ':')) (key.data ++ [':'] ++ t) = key.data := by
    rw [List.append_assoc, List.takeWhile_append_of_pos]
    · simp
    · intro a ha
      have : a ≠ ':' := fun he => hkey (he ▸ ha)
      simpa using this
  rw [htake]

/-- C22: after `parseFrontmatter` on a definition that starts with no tool
permissions, as `parseInstalledAgent` passes it, the tool permissions are exactly
`read: true` when some line of the block begins, after trimming, with `tools:`,
and empty when no line does, whatever the other lines say; and a line whose key,
the text before its first colon, is none of `description`, `mode`,
`temperature`, `tools`, or that has no colon at all, gives back the definition
unchanged in every field.  The parser is a total function: it has no error
result. -/
theorem parseFrontmatter_tools_and_unknown_keys (scanFloat : String → Rat) :
    (∀ (frontmatter : String) (agent : AgentResource), agent.Tools = [] →
      (parseFrontmatter scanFloat frontmatter agent).Tools =
        if hasToolsLine frontmatter then [("read", true)] else []) ∧
    (∀ (agent : AgentResource) (line : String),
      lineKey line ≠ some "description" → lineKey line ≠ some "mode" →
      lineKey line ≠ some "temperature" → lineKey line ≠ some "tools" →
      parseFrontmatterLine scanFloat agent line = agent) := by
  constructor
  · intro frontmatter agent hempty
    unfold parseFrontmatter hasToolsLine
    rw [foldl_parseFrontmatterLine_tools, hempty]
    rfl
  · intro agent line hd hm hte hto
    have key : ∀ k : String, ':' ∉ k.data → lineKey line ≠ some k →
        HasPrefix (TrimSpace line) (k ++ ":") = false := by
      intro k hk hne
      cases hp : HasPrefix (TrimSpace line) (k ++ ":") with
      | false => rfl
      | true => exact absurd (lineKey_of_key_colon line k hk hp) hne
    have h1 : HasPrefix (TrimSpace line) "description:" = false :=
      key "description" (by decide) hd
    have h2 : HasPrefix (TrimSpace line) "mode:" = false := key "mode" (by decide) hm
    have h3 : HasPrefix (TrimSpace line) "temperature:" = false :=
      key "temperature" (by decide) hte
    have h4 : HasPrefix (TrimSpace line) "tools:" = false := key "tools" (by decide) hto
    unfold parseFrontmatterLine
    simp [h1, h2, h3, h4]

/-- Witness of C22: a block with a `tools:` line and two per-tool entries gives
`read: true` alone, and a `model:` line leaves the sample definition as it was. -/
theorem parseFrontmatter_tools_and_unknown_keys_witness :
    (parseFrontmatter sampleHost.scanFloat "mode: primary\ntools:\n  write: true\n  read: false"
        { Name := "n", Description := "", Content := "", Mode := "", Temperature := 0,
          Tools := [] }).Tools = [("read", true)] ∧
    parseFrontmatterLine sampleHost.scanFloat sampleAgent
        "model: anthropic/claude-sonnet-4-20250514" = sampleAgent :=
  ⟨((parseFrontmatter_tools_and_unknown_keys sampleHost.scanFloat).1
      "mode: primary\ntools:\n  write: true\n  read: false"
      { Name := "n", Description := "", Content := "", Mode := "", Temperature := 0,
        Tools := [] } rfl).trans (by decide),
    (parseFrontmatter_tools_and_unknown_keys sampleHost.scanFloat).2 sampleAgent
      "model: anthropic/claude-sonnet-4-20250514" (by decide) (by decide) (by decide)
      (by decide)⟩

/-! ## The derived description -/

/-- C23, the code at the failing input: the Role section of `accentedRoleText`
is one line of 51 characters, `a` followed by fifty `é`, which the reference
returns whole; it takes 101 bytes, and `extractDescription`, which measures and
cuts in bytes, returns its first 97 bytes, `a` and forty-eight `é`, followed by
`...`: 52 characters. -/
theorem extractDescription_cuts_by_bytes :
    (String.mk ('a' :: List.replicate 50 'é')).length = 51 ∧
    byteLen (String.mk ('a' :: List.replicate 50 'é')) = 101 ∧
    extractDescriptionReference accentedRoleText = String.mk ('a' :: List.replicate 50 'é') ∧
    extractDescription accentedRoleText =
      String.mk ('a' :: List.replicate 48 'é') ++ "..." ∧
    (extractDescription accentedRoleText).length = 52 ∧
    extractDescription accentedRoleText ≠ extractDescriptionReference accentedRoleText := by
  decide

/-! ## The installer's file format and the parser of installed files -/

theorem digitChar_ne_newline : ∀ m : Nat, m < 10 → Nat.digitChar m ≠ '\n' := by
  decide

theorem toDigitsCore_no_newline :
    ∀ (fuel n : Nat) (ds : List Char), '\n' ∉ ds → '\n' ∉ Nat.toDigitsCore 10 fuel n ds := by
  intro fuel
  induction fuel with
  | zero => intro n ds h; simpa [Nat.toDigitsCore] using h
  | succ fuel ih =>
    intro n ds h
    have hd : '\n' ∉ Nat.digitChar (n % 10) :: ds := by
      simp only [List.mem_cons, not_or]
      exact ⟨fun e => digitChar_ne_newline _ (Nat.mod_lt n (by decide)) e.symm, h⟩
    unfold Nat.toDigitsCore
    simp only
    split_ifs
    · exact hd
    · exact ih _ _ hd

theorem toString_nat_no_newline (n : Nat) : '\n' ∉ (toString n).data := by
  show '\n' ∉ Nat.toDigits 10 n
  exact toDigitsCore_no_newline _ _ _ (by simp)

theorem fmtF1_no_newline (x : Rat) : '\n' ∉ (fmtF1 x).data := by
  intro h
  simp only [fmtF1, String.data_append, List.mem_append] at h
  rcases h with ((h | h) | h) | h
  · split_ifs at h <;> exact absurd h (by decide)
  · exact toString_nat_no_newline _ h
  · exact absurd h (by decide)
  · exact toString_nat_no_newline _ h

theorem TrimSpace_data (s : String) :
    (TrimSpace s).data = List.rdropWhile isSpace (s.data.dropWhile isSpace) := rfl

/-- A string that `TrimSpace` leaves as it is has no white space at either
end. -/
theorem TrimSpace_fixed (s : String) (h : TrimSpace s = s) :
    s.data.dropWhile isSpace = s.data ∧ List.rdropWhile isSpace s.data = s.data := by
  have hd : List.rdropWhile isSpace (s.data.dropWhile isSpace) = s.data := by
    rw [← TrimSpace_data, h]
  have hpre : List.rdropWhile isSpace (s.data.dropWhile isSpace) <+: s.data.dropWhile isSpace :=
    List.rdropWhile_prefix _ _
  have hsuf : s.data.dropWhile isSpace <:+ s.data := List.dropWhile_suffix _
  have hlen : (s.data.dropWhile isSpace).length = s.data.length := by
    have h1 := hpre.length_le
    have h2 := hsuf.length_le
    rw [hd] at h1
    omega
  have e1 : s.data.dropWhile isSpace = s.data := hsuf.eq_of_length hlen
  refine ⟨e1, ?_⟩
  rw [e1] at hd
  exact hd

theorem rdropWhile_append_of_fixed (a b : List Char) (hb : b ≠ [])
    (h : List.rdropWhile isSpace b = b) : List.rdropWhile isSpace (a ++ b) = a ++ b := by
  rw [List.rdropWhile_eq_self_iff] at h ⊢
  intro hl
  rw [List.getLast_append_of_ne_nil hb]
  exact h hb

/-- The trimmed text of a line `p`, a blank and a value `v` that has no white
space at either end: the prefix `p` and then something that, with its leading
white space dropped, is `v`. -/
theorem TrimSpace_key_line (p v : String) (c : Char) (cs : List Char)
    (hp : p.data = c :: cs) (hc : isSpace c = false)
    (hlast : List.rdropWhile isSpace p.data = p.data) (hv : TrimSpace v = v) :
    ∃ x : List Char, (TrimSpace (p ++ " " ++ v)).data = p.data ++ x ∧
      x.dropWhile isSpace = v.data := by
  obtain ⟨hv1, hv2⟩ := TrimSpace_fixed v hv
  have hdata : (p ++ " " ++ v).data = p.data ++ (' ' :: v.data) := by
    simp [String.data_append]
  have hdrop : (p.data ++ (' ' :: v.data)).dropWhile isSpace = p.data ++ (' ' :: v.data) := by
    rw [hp, List.cons_append, List.dropWhile_cons_of_neg]
    simp [hc]
  rw [TrimSpace_data, hdata, hdrop]
  by_cases hnil : v.data = []
  · refine ⟨[], ?_, by simp [hnil]⟩
    rw [hnil]
    have hsp : isSpace ' ' = true := by decide
    rw [List.rdropWhile_concat_pos _ _ _ hsp, hlast, List.append_nil]
  · refine ⟨' ' :: v.data, ?_, ?_⟩
    · have hne : (' ' :: v.data) ≠ [] := by simp
      have hfix : List.rdropWhile isSpace (' ' :: v.data) = ' ' :: v.data := by
        have := rdropWhile_append_of_fixed [' '] v.data hnil hv2
        simpa using this
      exact rdropWhile_append_of_fixed _ _ hne hfix
    · have hsp : isSpace ' ' = true := by decide
      rw [List.dropWhile_cons_of_pos hsp, hv1]

/-- What the parser does with a line `p`, a blank and a value: the line is not
empty, has the prefix `p`, and the trimmed rest is the value. -/
theorem TrimSpace_TrimPrefix_key_line (p v : String) (c : Char) (cs : List Char)
    (hp : p.data = c :: cs) (hc : isSpace c = false)
    (hlast : List.rdropWhile isSpace p.data = p.data) (hv : TrimSpace v = v) :
    TrimSpace (p ++ " " ++ v) ≠ "" ∧ HasPrefix (TrimSpace (p ++ " " ++ v)) p = true ∧
      TrimSpace (TrimPrefix (TrimSpace (p ++ " " ++ v)) p) = v := by
  obtain ⟨x, hx, hxv⟩ := TrimSpace_key_line p v c cs hp hc hlast hv
  obtain ⟨_, hv2⟩ := TrimSpace_fixed v hv
  have hpre : HasPrefix (TrimSpace (p ++ " " ++ v)) p = true := by
    unfold HasPrefix
    rw [List.isPrefixOf_iff_prefix, hx]
    exact List.prefix_append _ _
  refine ⟨?_, hpre, ?_⟩
  · intro he
    rw [he, hp] at hx
    exact absurd hx (by simp)
  · unfold TrimPrefix
    rw [if_pos hpre]
    apply String.ext
    rw [TrimSpace_data]
    simp only [hx, List.drop_left, hxv, hv2]

theorem parseFrontmatterLine_description_line (scanFloat : String → Rat)
    (agent : AgentResource) (v : String) (hv : TrimSpace v = v) :
    parseFrontmatterLine scanFloat agent ("description: " ++ v) =
      { agent with Description := v } := by
  have hlit : "description: " = "description:" ++ " " := by decide
  obtain ⟨hne, hpre, hval⟩ := TrimSpace_TrimPrefix_key_line "description:" v 'd' _ rfl
    (by decide) (by decide) hv
  rw [hlit]
  unfold parseFrontmatterLine
  simp only [hne, hpre, hval, if_false, if_true]

theorem parseFrontmatterLine_mode_line (scanFloat : String → Rat)
    (agent : AgentResource) (v : String) (hv : TrimSpace v = v) :
    parseFrontmatterLine scanFloat agent ("mode: " ++ v) = { agent with Mode := v } := by
  have hlit : "mode: " = "mode:" ++ " " := by decide
  obtain ⟨hne, hpre, hval⟩ := TrimSpace_TrimPrefix_key_line "mode:" v 'm' _ rfl
    (by decide) (by decide) hv
  have hd : HasPrefix (TrimSpace ("mode:" ++ " " ++ v)) "description:" = false :=
    HasPrefix_exclusive _ "mode:" "description:" 'm' 'd' _ _ rfl rfl (by decide) hpre
  rw [hlit]
  unfold parseFrontmatterLine
  simp only [hne, hpre, hval, hd, if_false, if_true]
  simp

theorem parseFrontmatterLine_description (scanFloat : String → Rat) (agent : AgentResource)
    (line : String) (h : HasPrefix (TrimSpace line) "description:" = false) :
    (parseFrontmatterLine scanFloat agent line).Description = agent.Description := by
  unfold parseFrontmatterLine
  simp only [h]
  split_ifs <;> first | rfl | contradiction

theorem foldl_parseFrontmatterLine_description (scanFloat : String → Rat) :
    ∀ (lines : List String) (agent : AgentResource),
      (∀ l, l ∈ lines → HasPrefix (TrimSpace l) "description:" = false) →
      (lines.foldl (parseFrontmatterLine scanFloat) agent).Description = agent.Description := by
  intro lines
  induction lines with
  | nil => intro agent _; rfl
  | cons line lines ih =>
    intro agent h
    rw [List.foldl_cons, ih _ (fun l hl => h l (List.mem_cons_of_mem _ hl)),
      parseFrontmatterLine_description _ _ _ (h line (List.mem_cons_self _ _))]

theorem neutralLine_iff (line : String) :
    neutralLine line = true ↔
      line ≠ "---" ∧ HasPrefix (TrimSpace line) "description:" = false ∧
        HasPrefix (TrimSpace line) "mode:" = false := by
  unfold neutralLine
  simp [and_assoc]

/-- The trimmed text of a line that begins with a character that is no white
space begins with that character. -/
theorem TrimSpace_head (s : String) (c : Char) (cs : List Char) (hs : s.data = c :: cs)
    (hc : isSpace c = false) : (TrimSpace s).data.head? = some c := by
  have hdrop : s.data.dropWhile isSpace = c :: cs := by
    rw [hs, List.dropWhile_cons_of_neg]
    simp [hc]
  have hpre : List.rdropWhile isSpace (c :: cs) <+: c :: cs := List.rdropWhile_prefix _ _
  have hne : List.rdropWhile isSpace (c :: cs) ≠ [] := by
    intro he
    rw [List.rdropWhile_eq_nil_iff] at he
    have := he c (List.mem_cons_self _ _)
    rw [hc] at this
    exact absurd this (by decide)
  rw [TrimSpace_data, hdrop]
  cases hr : List.rdropWhile isSpace (c :: cs) with
  | nil => exact absurd hr hne
  | cons d ds =>
    rw [hr] at hpre
    obtain ⟨t, ht⟩ := hpre
    simp only [List.cons_append, List.cons.injEq] at ht
    rw [ht.1]
    rfl

/-- A line that begins with a character that is no white space, no `-`, no
`d` and no `m` is neutral. -/
theorem neutralLine_of_head (s : String) (c : Char) (cs : List Char) (hs : s.data = c :: cs)
    (hc : isSpace c = false) (h1 : c ≠ '-') (h2 : c ≠ 'd') (h3 : c ≠ 'm') :
    neutralLine s = true := by
  rw [neutralLine_iff]
  have hh := TrimSpace_head s c cs hs hc
  refine ⟨?_, ?_, ?_⟩
  · intro he
    rw [he] at hs
    have : ('-' : Char) = c := (List.cons.inj hs).1
    exact h1 this.symm
  · cases hq : HasPrefix (TrimSpace s) "description:" with
    | false => rfl
    | true =>
      have := HasPrefix_head _ "description:" 'd' _ rfl hq
      rw [hh] at this
      exact absurd (Option.some.inj this) h2
  · cases hq : HasPrefix (TrimSpace s) "mode:" with
    | false => rfl
    | true =>
      have := HasPrefix_head _ "mode:" 'm' _ rfl hq
      rw [hh] at this
      exact absurd (Option.some.inj this) h3

theorem toolLine_neutral (k : String) (v : Bool) (hk : k ∈ knownToolNames) :
    ∀ l ∈ Split ("  " ++ k ++ ": " ++ (if v then "true" else "false")) '\n',
      neutralLine l = true := by
  simp only [knownToolNames, List.mem_cons, List.mem_singleton, List.not_mem_nil,
    or_false] at hk
  rcases hk with rfl | rfl | rfl | rfl | rfl <;> cases v <;> decide

/-- The loop of `generateToolsConfig` writes neutral lines only. -/
theorem toolsConfig_foldl_neutral :
    ∀ (tools : GoMap Bool) (c0 : String), (∀ kv ∈ tools, kv.1 ∈ knownToolNames) →
      (∀ l ∈ Split c0 '\n', neutralLine l = true) →
      ∀ l ∈ Split (tools.foldl
          (fun config kv =>
            config ++ ("  " ++ kv.1 ++ ": " ++ (if kv.2 then "true" else "false") ++ "\n"))
          (c0 ++ "\n")) '\n', neutralLine l = true := by
  intro tools
  induction tools with
  | nil =>
    intro c0 _ h0 l hl
    have he : c0 ++ "\n" = c0 ++ "\n" ++ "" := by simp
    rw [List.foldl_nil, he, Split_append_newline, List.mem_append] at hl
    rcases hl with hl | hl
    · exact h0 l hl
    · have : ∀ l ∈ Split "" '\n', neutralLine l = true := by decide
      exact this l hl
  | cons kv rest ih =>
    intro c0 hk h0
    rw [List.foldl_cons]
    have he : c0 ++ "\n" ++ ("  " ++ kv.1 ++ ": " ++ (if kv.2 then "true" else "false") ++ "\n") =
        (c0 ++ "\n" ++ ("  " ++ kv.1 ++ ": " ++ (if kv.2 then "true" else "false"))) ++ "\n" := by
      simp only [String.append_assoc]
    rw [he]
    apply ih _ (fun kv2 h2 => hk kv2 (List.mem_cons_of_mem _ h2))
    intro l hl
    rw [Split_append_newline, List.mem_append] at hl
    rcases hl with hl | hl
    · exact h0 l hl
    · exact toolLine_neutral kv.1 kv.2 (hk kv (List.mem_cons_self _ _)) l hl

theorem generateToolsConfig_neutral (tools : GoMap Bool)
    (hk : ∀ kv ∈ tools, kv.1 ∈ knownToolNames) :
    ∀ l ∈ Split (generateToolsConfig tools) '\n', neutralLine l = true := by
  unfold generateToolsConfig
  split_ifs with h0
  · decide
  · have hlit : "tools:\n" = "tools:" ++ "\n" := by decide
    rw [hlit]
    exact toolsConfig_foldl_neutral tools "tools:" hk (by decide)

theorem no_newline_append (a b : String) (ha : '\n' ∉ a.data) (hb : '\n' ∉ b.data) :
    '\n' ∉ (a ++ b).data := by
  rw [String.data_append, List.mem_append]
  exact fun h => h.elim ha hb

/-- The lines of the file that the installer writes. -/
theorem generateOpenCodeAgentFile_lines (agent : AgentResource)
    (hD : '\n' ∉ agent.Description.data) (hM : '\n' ∉ agent.Mode.data) :
    Split (generateOpenCodeAgentFile agent) '\n' =
      [] ++ "---" ::
        (("description: " ++ agent.Description) :: ("mode: " ++ agent.Mode) ::
            "model: anthropic/claude-sonnet-4-20250514" ::
            ("temperature: " ++ fmtF1 agent.Temperature) ::
            Split (generateToolsConfig agent.Tools) '\n' ++
          "---" :: Split ("\n" ++ agent.Content) '\n') := by
  have heq : generateOpenCodeAgentFile agent =
      "---" ++ "\n" ++ (("description: " ++ agent.Description) ++ "\n" ++
        (("mode: " ++ agent.Mode) ++ "\n" ++
          ("model: anthropic/claude-sonnet-4-20250514" ++ "\n" ++
            (("temperature: " ++ fmtF1 agent.Temperature) ++ "\n" ++
              (generateToolsConfig agent.Tools ++ "\n" ++
                ("---" ++ "\n" ++ ("\n" ++ agent.Content))))))) := by
    unfold generateOpenCodeAgentFile
    apply String.ext
    simp only [String.data_append, List.append_assoc]
    rfl
  rw [heq]
  simp only [Split_append_newline]
  rw [Split_of_no_newline "---" (by decide),
    Split_of_no_newline ("description: " ++ agent.Description)
      (no_newline_append _ _ (by decide) hD),
    Split_of_no_newline ("mode: " ++ agent.Mode) (no_newline_append _ _ (by decide) hM),
    Split_of_no_newline "model: anthropic/claude-sonnet-4-20250514" (by decide),
    Split_of_no_newline ("temperature: " ++ fmtF1 agent.Temperature)
      (no_newline_append _ _ (by decide) (fmtF1_no_newline _))]
  simp

/-- C25: round trip of the installer's file format through the parser of
installed files.  For every agent definition whose `Description` and `Mode`
contain no newline and have no white space at either end, and whose tool names
are among read, write, edit, bash, webfetch, parsing under the definition's name
the file that `generateOpenCodeAgentFile` writes gives a definition with the same
`Name`, `Description` and `Mode`, and with `Content` equal to one newline
followed by the original `Content`. -/
theorem generated_file_round_trip (scanFloat : String → Rat) (agent : AgentResource)
    (hD1 : TrimSpace agent.Description = agent.Description)
    (hD2 : '\n' ∉ agent.Description.data)
    (hM1 : TrimSpace agent.Mode = agent.Mode) (hM2 : '\n' ∉ agent.Mode.data)
    (hT : ∀ kv ∈ agent.Tools, kv.1 ∈ ["read", "write", "edit", "bash", "webfetch"]) :
    (parseInstalledAgent scanFloat agent.Name (generateOpenCodeAgentFile agent)).Name =
        agent.Name ∧
    (parseInstalledAgent scanFloat agent.Name (generateOpenCodeAgentFile agent)).Description =
        agent.Description ∧
    (parseInstalledAgent scanFloat agent.Name (generateOpenCodeAgentFile agent)).Mode =
        agent.Mode ∧
    (parseInstalledAgent scanFloat agent.Name (generateOpenCodeAgentFile agent)).Content =
        "\n" ++ agent.Content := by
  have hsplit := generateOpenCodeAgentFile_lines agent hD2 hM2
  have htl : neutralLine ("temperature: " ++ fmtF1 agent.Temperature) = true :=
    neutralLine_of_head _ 't' ("emperature: ".data ++ (fmtF1 agent.Temperature).data)
      (by rw [String.data_append]; rfl) (by decide) (by decide) (by decide) (by decide)
  have hrest : ∀ l ∈ "model: anthropic/claude-sonnet-4-20250514" ::
      ("temperature: " ++ fmtF1 agent.Temperature) ::
      Split (generateToolsConfig agent.Tools) '\n', neutralLine l = true := by
    intro l hl
    simp only [List.mem_cons] at hl
    rcases hl with rfl | rfl | hl
    · decide
    · exact htl
    · exact generateToolsConfig_neutral agent.Tools hT l hl
  have hdl : "description: " ++ agent.Description ≠ "---" := by
    intro he
    have := congrArg (fun t => t.data.head?) he
    simp only [String.data_append] at this
    exact absurd (Option.some.inj this) (by decide)
  have hml : "mode: " ++ agent.Mode ≠ "---" := by
    intro he
    have := congrArg (fun t => t.data.head?) he
    simp only [String.data_append] at this
    exact absurd (Option.some.inj this) (by decide)
  have hms : "---" ∉ ("description: " ++ agent.Description) :: ("mode: " ++ agent.Mode) ::
      "model: anthropic/claude-sonnet-4-20250514" ::
      ("temperature: " ++ fmtF1 agent.Temperature) ::
      Split (generateToolsConfig agent.Tools) '\n' := by
    intro hmem
    rw [List.mem_cons, List.mem_cons] at hmem
    rcases hmem with he | he | he
    · exact hdl he.symm
    · exact hml he.symm
    · exact ((neutralLine_iff _).1 (hrest _ he)).1 rfl
  have hnl : ∀ l, l ∈ ("description: " ++ agent.Description) :: ("mode: " ++ agent.Mode) ::
      "model: anthropic/claude-sonnet-4-20250514" ::
      ("temperature: " ++ fmtF1 agent.Temperature) ::
      Split (generateToolsConfig agent.Tools) '\n' → '\n' ∉ l.data := by
    intro l hl
    simp only [List.mem_cons] at hl
    rcases hl with rfl | rfl | rfl | rfl | hl
    · exact no_newline_append _ _ (by decide) hD2
    · exact no_newline_append _ _ (by decide) hM2
    · decide
    · exact no_newline_append _ _ (by decide) (fmtF1_no_newline _)
    · exact Split_no_newline _ l hl
  rw [parseInstalledAgent_of_bounds scanFloat agent.Name _ [] _ _ hsplit (by simp) hms]
  simp only
  unfold parseFrontmatter
  rw [Split_Join _ (by simp) hnl, List.foldl_cons, List.foldl_cons,
    parseFrontmatterLine_description_line _ _ _ hD1, parseFrontmatterLine_mode_line _ _ _ hM1]
  refine ⟨?_, ?_, ?_, Join_Split _⟩
  · exact foldl_parseFrontmatterLine_name _ _ _
  · rw [foldl_parseFrontmatterLine_description _ _ _
      (fun l hl => ((neutralLine_iff l).1 (hrest l hl)).2.1)]
  · rw [foldl_parseFrontmatterLine_mode _ _ _
      (fun l hl => ((neutralLine_iff l).1 (hrest l hl)).2.2)]

/-- Witness of C25: the sample definition `sampleAgent`, with four tool
permissions, meets the conditions, and its file parses back to its name,
description and mode, and to its content after one newline. -/
theorem generated_file_round_trip_witness :
    (∀ kv ∈ sampleAgent.Tools, kv.1 ∈ ["read", "write", "edit", "bash", "webfetch"]) ∧
    (parseInstalledAgent sampleHost.scanFloat "reviewer"
        (generateOpenCodeAgentFile sampleAgent)).Name = "reviewer" ∧
    (parseInstalledAgent sampleHost.scanFloat "reviewer"
        (generateOpenCodeAgentFile sampleAgent)).Description = "Reviews code for quality" ∧
    (parseInstalledAgent sampleHost.scanFloat "reviewer"
        (generateOpenCodeAgentFile sampleAgent)).Mode = "subagent" ∧
    (parseInstalledAgent sampleHost.scanFloat "reviewer"
        (generateOpenCodeAgentFile sampleAgent)).Content =
      "\n# Reviewer\n\n## Role\nReviews code." :=
  ⟨by decide,
    generated_file_round_trip sampleHost.scanFloat sampleAgent (by decide) (by decide)
      (by decide) (by decide) (by decide)⟩

end OpenCodeAgents
